import Mathlib

/-!
Verification of the Hybrid A* planner sources
(`ref_hybrid_a_star/my_hybrid_astar.py` and
`hybrid_a_star/model/tractor_trailer_model.py`).

The Python code is shallowly embedded over an arbitrary linear ordered
field `α` (instantiated at `ℚ` for executable checks and at `ℝ` where a
statement mentions `π`).  Calls into external numeric libraries
(`math.cos`, `math.sin`, `math.hypot`, `rs.pi_2_pi`, `rs.calc_all_paths`,
`scipy` KD-tree queries) are passed in as function parameters, so every
theorem quantifies over the behaviour of those collaborators unless the
spec pins it down.  Machine floats are idealised as exact field elements.
-/

namespace HA

section Embedding

variable {α : Type} [LinearOrderedField α] [FloorRing α]

/-- Python 3 `round`: round half to even (banker's rounding), as used for
all grid-index computations in the source. -/
def pyround (q : α) : ℤ :=
  let f : ℤ := ⌊q⌋
  let frac : α := q - f
  if frac < 1 / 2 then f
  else if 1 / 2 < frac then f + 1
  else if f % 2 = 0 then f else f + 1

/-- Python list read `l[i]`: negative indices wrap once, out-of-range
raises (modelled as `none`). -/
def pyGet {β : Type} (l : List β) (i : ℤ) : Option β :=
  if 0 ≤ i ∧ i < l.length then l.get? i.toNat
  else if -(l.length : ℤ) ≤ i ∧ i < 0 then l.get? (l.length - (-i).toNat)
  else none

/-- Python 2-d list read `l[i][j]`. -/
def pyGet2D {β : Type} (l : List (List β)) (i j : ℤ) : Option β :=
  match pyGet l i with
  | none => none
  | some row => pyGet row j

/-- Python list write `l[i] = b` (negative indices wrap once,
out-of-range raises, modelled as `none`). -/
def pySet {β : Type} (l : List β) (i : ℤ) (b : β) : Option (List β) :=
  if 0 ≤ i ∧ i < l.length then some (l.set i.toNat b)
  else if -(l.length : ℤ) ≤ i ∧ i < 0 then some (l.set (l.length - (-i).toNat) b)
  else none

/-- Python 2-d list write `l[i][j] = b`. -/
def pySet2D {β : Type} (l : List (List β)) (i j : ℤ) (b : β) :
    Option (List (List β)) :=
  match pyGet l i with
  | none => none
  | some row =>
    match pySet row j b with
    | none => none
    | some row2 => pySet l i row2

/-- Dictionary lookup on an insertion-ordered association list
(model of a Python `dict`). -/
def alookup {β : Type} (m : List (ℤ × β)) (k : ℤ) : Option β :=
  match m with
  | [] => none
  | (k1, b) :: rest => if k1 = k then some b else alookup rest k

/-- Dictionary write `m[k] = b`: replace in place if the key is present,
append otherwise (Python dicts keep insertion order). -/
def ainsert {β : Type} (m : List (ℤ × β)) (k : ℤ) (b : β) : List (ℤ × β) :=
  match m with
  | [] => [(k, b)]
  | (k1, b1) :: rest =>
    if k1 = k then (k1, b) :: rest else (k1, b1) :: ainsert rest k b

/-- Dictionary deletion `m.pop(k)`. -/
def aremove {β : Type} (m : List (ℤ × β)) (k : ℤ) : List (ℤ × β) :=
  m.filter (fun e => e.1 ≠ k)

/-- Keys of an association list. -/
def akeys {β : Type} (m : List (ℤ × β)) : List ℤ := m.map Prod.fst

/-- One step of selection from a priority structure: return the entry
with the least priority (ties broken by least key, the concrete order in
which `heapq` pops `(cost, index)` tuples; `heapdict.popitem` also pops a
least-priority entry) together with the remaining entries. -/
def pqPopMin {π : Type} [LinearOrder π] :
    List (ℤ × π) → Option ((ℤ × π) × List (ℤ × π))
  | [] => none
  | (k, p) :: rest =>
    match pqPopMin rest with
    | none => some ((k, p), [])
    | some ((k2, p2), rest2) =>
      if p < p2 ∨ (p = p2 ∧ k ≤ k2) then some ((k, p), rest)
      else some ((k2, p2), (k, p) :: rest2)

/-- Sampling every K-th element, `range(0, len(l), K)` followed by
indexing, as the collision checker does. -/
def everyKth {β : Type} (K : ℕ) (dflt : β) (l : List β) : List β :=
  ((List.range l.length).filter (fun i => i % K = 0)).map (fun i => l.getD i dflt)

end Embedding

/-! Configuration constants of class `C` in the source, as exact
rationals injected into the ambient field.  `C.PI = math.pi` and
`C.YAW_RESO = np.deg2rad(15.0)` are IEEE-754 doubles, which are exactly
these rationals. -/

namespace C

def PI (α : Type) [DivisionRing α] : α :=
  884279719003555 / 281474976710656

def XY_RESO (α : Type) [DivisionRing α] : α := 1 / 5

def YAW_RESO (α : Type) [DivisionRing α] : α :=
  4716158501352293 / 18014398509481984

def MOVE_STEP (α : Type) [DivisionRing α] : α := 1 / 5

def N_STEER : ℕ := 10

def MAX_ANGULAR_VELOCITY (α : Type) [DivisionRing α] : α := 1 / 2

def MIN_ANGULAR_VELOCITY (α : Type) [DivisionRing α] : α := -(1 / 2)

def MAX_CURVATURE_RADIUS (α : Type) [DivisionRing α] : α := 1 / 2

def COLLISION_CHECK_STEP : ℕ := 2

def GEAR_COST (α : Type) [DivisionRing α] : α := 100

def BACKWARD_COST (α : Type) [DivisionRing α] : α := 50

def ANGULAR_VELOCITY_CHANGE_COST (α : Type) [DivisionRing α] : α := 2

def H_COST (α : Type) [DivisionRing α] : α := 10

def RADIUS (α : Type) [DivisionRing α] : α := 2 / 5

def RF (α : Type) [DivisionRing α] : α := 3 / 5

def RB (α : Type) [DivisionRing α] : α := 1 / 5

def W (α : Type) [DivisionRing α] : α := 3 / 5

def WB (α : Type) [DivisionRing α] : α := 3 / 5

end C

/-! Data structures of the planner. -/

/-- `HolonomicNode` of the 2-d Dijkstra. -/
structure HolonomicNode (α : Type) where
  x : ℤ
  y : ℤ
  cost : α
  pind : ℤ
  deriving Repr, DecidableEq

/-- `Node` of the 3-d hybrid search. -/
structure Node (α : Type) where
  xind : ℤ
  yind : ℤ
  yawind : ℤ
  direction : ℤ
  x : List α
  y : List α
  yaw : List α
  directions : List ℤ
  steer : α
  cost : α
  pind : ℤ
  deriving Repr, DecidableEq

/-- `Para`: the spatial parameters (the KD-tree handle is replaced by the
obstacle coordinate lists it is built from). -/
structure Para (α : Type) where
  minx : ℤ
  miny : ℤ
  minyaw : ℤ
  maxx : ℤ
  maxy : ℤ
  maxyaw : ℤ
  xw : ℤ
  yw : ℤ
  yaww : ℤ
  xyreso : α
  yawreso : α
  ox : List α
  oy : List α
  deriving Repr, DecidableEq

/-- `Path`, the final artifact. -/
structure Path (α : Type) where
  x : List α
  y : List α
  yaw : List α
  direction : List ℤ
  cost : α
  deriving Repr, DecidableEq

/-- An `RSPath` as delivered by the external `reeds_shepp` collaborator
(contract in spec section 6.3): sampled coordinates plus the signed arc
length of each primitive segment. -/
structure RSPath (α : Type) where
  x : List α
  y : List α
  yaw : List α
  directions : List ℤ
  lengths : List α
  deriving Repr, DecidableEq

/-! `calc_rs_path_cost` (source lines 418-433). -/

section RSCost

variable {α : Type} [LinearOrderedField α]

/-- The distance part of `calc_rs_path_cost`: the source adds a flat `1`
for a segment of non-negative length and `abs(lr) * C.BACKWARD_COST` for
a negative one. -/
def rs_distance_cost : List α → α
  | [] => 0
  | lr :: rest =>
    (if 0 ≤ lr then 1 else |lr| * C.BACKWARD_COST α) + rs_distance_cost rest

/-- The direction-change part of `calc_rs_path_cost`: `C.GEAR_COST` for
each adjacent pair of segment lengths with product `< 0`. -/
def rs_switch_cost : List α → α
  | l1 :: l2 :: rest =>
    (if l1 * l2 < 0 then C.GEAR_COST α else 0) + rs_switch_cost (l2 :: rest)
  | _ => 0

/-- `calc_rs_path_cost(rspath)` from the source. -/
def calc_rs_path_cost (rspath : RSPath α) : α :=
  rs_distance_cost rspath.lengths + rs_switch_cost rspath.lengths

/-- The cost formula asserted by the spec sentence behind claim C1: the
distance part is `|len|` for a non-negative segment (not a flat `1`). -/
def rs_cost_claimed (rspath : RSPath α) : α :=
  (rspath.lengths.map
    (fun lr => if 0 ≤ lr then |lr| else |lr| * C.BACKWARD_COST α)).sum
  + rs_switch_cost rspath.lengths

end RSCost

/-! Theorems for claim C1. -/

/-- C1, counterexample: on the single-segment path of length 2 the source
`calc_rs_path_cost` returns 1, while the claimed formula (sum of `|len|`
over forward segments) gives 2. -/
theorem c1_counterexample :
    calc_rs_path_cost (⟨[], [], [], [], [(2 : ℚ)]⟩ : RSPath ℚ) ≠
      rs_cost_claimed (⟨[], [], [], [], [(2 : ℚ)]⟩ : RSPath ℚ) := by
  norm_num [calc_rs_path_cost, rs_cost_claimed, rs_distance_cost,
    rs_switch_cost]

/-- C1, amended: `calc_rs_path_cost` returns the sum over segments of a
flat `1` if `len ≥ 0` else `|len| * BACKWARD_COST`, plus `GEAR_COST` for
each consecutive pair of segment lengths with negative product. -/
theorem c1_rs_cost_amended {α : Type} [LinearOrderedField α] (p : RSPath α) :
    calc_rs_path_cost p =
      (p.lengths.map
        (fun lr => if 0 ≤ lr then 1 else |lr| * C.BACKWARD_COST α)).sum
      + (C.GEAR_COST α) *
          ((p.lengths.zip p.lengths.tail).countP
            (fun ab => decide (ab.1 * ab.2 < 0)) : ℕ) := by
  obtain ⟨x, y, yaw, dirs, lengths⟩ := p
  unfold calc_rs_path_cost
  simp only
  have hdist : ∀ L : List α, rs_distance_cost L =
      (L.map (fun lr => if 0 ≤ lr then 1 else |lr| * C.BACKWARD_COST α)).sum := by
    intro L
    induction L with
    | nil => simp [rs_distance_cost]
    | cons a t ih => simp [rs_distance_cost, ih]
  have hswitch : ∀ L : List α, rs_switch_cost L =
      (C.GEAR_COST α) *
        ((L.zip L.tail).countP (fun ab => decide (ab.1 * ab.2 < 0)) : ℕ) := by
    intro L
    induction L with
    | nil => simp [rs_switch_cost]
    | cons a t ih =>
      cases t with
      | nil => simp [rs_switch_cost]
      | cons b t2 =>
        simp only [rs_switch_cost, ih, List.tail_cons, List.zip_cons_cons,
          List.countP_cons]
        by_cases h : a * b < 0
        · simp only [h, decide_true_eq_true, if_true, decide_eq_true_eq,
            if_pos trivial, Nat.cast_add, Nat.cast_one, Nat.cast_ite,
            Nat.cast_zero]
          ring
        · simp [h]
  rw [hdist, hswitch]

/-! The tractor-trailer motion model
(`hybrid_a_star/model/tractor_trailer_model.py`).  CasADi column vectors
are modelled as lists over the field; `state.size() == (n, 1)` becomes
`state.length = n`, and a raised exception becomes `Except.error`.
`cs.cos`/`cs.sin` are passed in as function parameters. -/

section TractorTrailer

variable {α : Type} [LinearOrderedField α]

/-- Truth value of `Except` success, used to express "returns without
raising". -/
def exceptOk {ε β : Type} : Except ε β → Bool
  | .ok _ => true
  | .error _ => false

/-- `TractorTrailerModel.dynamics(state, input)` (source lines 40-106).
The configured sizes `nx`, `nu` and the lengths `lb = _lb`, `lf = _lf`
and the `trailer_based_model` flag are parameters of the model object.
After the size checks the source reads `input[0]` and `input[1]` (lines
55-57), which raise casadi's out-of-bounds error when the input vector
has fewer than two entries; this is the error arm of the match.  When
no shape branch matches, the source returns `cs.vertcat()` of an empty
list, which raises nothing. -/
def dynamics (co si : α → α) (lb lf : α) (trailer_based_model : Bool)
    (nx nu : ℕ) (state input : List α) : Except String (List α) :=
  if state.length ≠ nx then
    Except.error "Failed to compute dynamics: state size mismatch"
  else if input.length ≠ nu then
    Except.error "Failed to compute dynamics: input size mismatch"
  else
    match input with
    | [] => Except.error "Out of bounds error: reading input index 0"
    | [_] => Except.error "Out of bounds error: reading input index 1"
    | v1 :: w1 :: _ =>
      if state.length = 6 then
        let theta1 := state.getD 2 0
        let theta2 := state.getD 5 0
        let gamma := theta2 - theta1
        Except.ok [v1 * co theta1, v1 * si theta1, w1,
          v1 * co theta2 * co gamma - w1 * lb * co theta2 * si gamma,
          v1 * si theta2 * co gamma - w1 * lb * si theta2 * si gamma,
          -(v1 * (1 / lf) * si gamma) - w1 * (lb / lf) * co gamma]
      else if state.length = 4 ∧ trailer_based_model then
        let theta2 := state.getD 2 0
        let gamma := state.getD 3 0
        Except.ok [v1 * co theta2 * co gamma - w1 * lb * co theta2 * si gamma,
          v1 * si theta2 * co gamma - w1 * lb * si theta2 * si gamma,
          -(v1 * (1 / lf) * si gamma) - w1 * (lb / lf) * co gamma,
          -(v1 * (1 / lf) * si gamma) - w1 * ((lb / lf) * co gamma + 1)]
      else if state.length = 4 ∧ ¬trailer_based_model then
        let theta1 := state.getD 2 0
        let gamma := state.getD 3 0
        Except.ok [v1 * co theta1, v1 * si theta1, w1,
          -(v1 * (1 / lf) * si gamma) - w1 * ((lb / lf) * co gamma + 1)]
      else
        Except.ok []

/-- `TractorTrailerModel.compute_tractor_pose_from_trailer_pose(state)`
(source lines 108-127): `(x2, y2, theta2, gamma) -> (x1, y1, theta1)`.
After the size check the source unpacks `cs.vertsplit(state)` into four
names, which raises when the state is not a 4-vector. -/
def compute_tractor_pose_from_trailer_pose (co si : α → α) (lb lf : α)
    (nx : ℕ) (state : List α) : Except String (List α) :=
  if state.length ≠ nx then
    Except.error "Failed to compute tractor pose: size mismatch"
  else if state.length ≠ 4 then
    Except.error "vertsplit unpack mismatch"
  else
    let x2 := state.getD 0 0
    let y2 := state.getD 1 0
    let theta2 := state.getD 2 0
    let gamma := state.getD 3 0
    let theta1 := theta2 - gamma
    Except.ok [x2 + lf * co theta2 + lb * co theta1,
      y2 + lf * si theta2 + lb * si theta1, theta1]

/-- `TractorTrailerModel.compute_trailer_pose_from_tractor_pose(state)`
(source lines 129-148): `(x1, y1, theta1, gamma) -> (x2, y2, theta2)`.
Note the coefficients: `x2 = x1 - lf*cos(theta1) - lb*cos(theta2)`. -/
def compute_trailer_pose_from_tractor_pose (co si : α → α) (lb lf : α)
    (nx : ℕ) (state : List α) : Except String (List α) :=
  if state.length ≠ nx then
    Except.error "Failed to compute trailer pose: size mismatch"
  else if state.length ≠ 4 then
    Except.error "vertsplit unpack mismatch"
  else
    let x1 := state.getD 0 0
    let y1 := state.getD 1 0
    let theta1 := state.getD 2 0
    let gamma := state.getD 3 0
    let theta2 := theta1 + gamma
    Except.ok [x1 - lf * co theta1 - lb * co theta2,
      y1 - lf * si theta1 - lb * si theta2, theta2]

/-- The round trip of claim C10: tractor pose to trailer pose and back,
reusing the same hitch angle `gamma`, on a model configured with
`nx = 4`. -/
def tractor_round_trip (co si : α → α) (lb lf x1 y1 theta1 gamma : α) :
    Except String (List α) :=
  match compute_trailer_pose_from_tractor_pose co si lb lf 4
      [x1, y1, theta1, gamma] with
  | .error e => .error e
  | .ok p2 => compute_tractor_pose_from_trailer_pose co si lb lf 4
      (p2 ++ [gamma])

end TractorTrailer

/-- C9, counterexample: on a model configured with `nu = 1`, a state
and input of exactly the configured sizes still raise: both size checks
pass and the source then reads `input[1]` (line 57), which is out of
bounds for the one-entry input vector.  So "for correctly sized state
and input it returns without raising" is false of the program. -/
theorem c9_counterexample :
    exceptOk (dynamics (fun _ => (1 : ℚ)) (fun _ => 0) 1 1 false 4 1
      [0, 0, 0, 0] [1]) = false ∧
    List.length ([0, 0, 0, 0] : List ℚ) = 4 ∧
    List.length ([1] : List ℚ) = 1 := by
  refine ⟨rfl, rfl, rfl⟩

/-- C9, amended: `TractorTrailerModel.dynamics` returns without raising
exactly when the state size matches the configured `(nx, 1)`, the input
size matches `(nu, 1)`, and `nu` is at least 2 (so that the reads
`input[0]` and `input[1]` after the size checks are in bounds); in every
other case it raises, and the mismatch is surfaced to the caller, never
recovered internally. -/
theorem c9_dynamics_raises_amended {α : Type}
    [LinearOrderedField α] (co si : α → α) (lb lf : α)
    (trailer_based_model : Bool) (nx nu : ℕ) (state input : List α) :
    exceptOk (dynamics co si lb lf trailer_based_model nx nu state input) =
      true ↔ (state.length = nx ∧ input.length = nu ∧ 2 ≤ nu) := by
  unfold dynamics
  by_cases h1 : state.length = nx
  · by_cases h2 : input.length = nu
    · rw [if_neg (by simp [h1]), if_neg (by simp [h2])]
      rcases input with _ | ⟨v1, _ | ⟨w1, rest⟩⟩
      · refine iff_of_false (by simp [exceptOk]) ?_
        rintro ⟨-, -, hnu⟩
        simp only [List.length_nil] at h2
        omega
      · refine iff_of_false (by simp [exceptOk]) ?_
        rintro ⟨-, -, hnu⟩
        simp only [List.length_cons, List.length_nil] at h2
        omega
      · refine iff_of_true ?_ ⟨h1, h2, ?_⟩
        · split_ifs <;> rfl
        · simp only [List.length_cons] at h2
          omega
    · rw [if_neg (by simp [h1]), if_pos (by simp [h2])]
      exact iff_of_false (by simp [exceptOk]) (by simp [h2])
  · rw [if_pos (by simp [h1])]
    exact iff_of_false (by simp [exceptOk]) (by simp [h1])

/-- C10, counterexample: with `lb = 2`, `lf = 1`, tractor pose
`(0, 0, 0)` and hitch angle `gamma = π`, converting to the trailer pose
and back returns `(2, 0, 0)`, not the original `(0, 0, 0)`. -/
theorem c10_counterexample :
    tractor_round_trip Real.cos Real.sin 2 1 0 0 0 Real.pi ≠
      Except.ok [0, 0, 0] := by
  unfold tractor_round_trip compute_trailer_pose_from_tractor_pose
    compute_tractor_pose_from_trailer_pose
  norm_num [Real.cos_pi, Real.sin_pi]

/-- C10, amended: the round trip preserves `theta1` exactly, but shifts
the position by `(lb - lf) * (cos theta1 - cos (theta1 + gamma))` (and
the analogue in `y`), because `compute_trailer_pose_from_tractor_pose`
uses `lf` on the tractor heading and `lb` on the trailer heading while
`compute_tractor_pose_from_trailer_pose` does the opposite; the two maps
are mutual inverses only when `lb = lf` (or the two headings have equal
cosine and sine). -/
theorem c10_round_trip_amended {α : Type} [LinearOrderedField α]
    (co si : α → α) (lb lf x1 y1 theta1 gamma : α) :
    tractor_round_trip co si lb lf x1 y1 theta1 gamma =
      Except.ok [x1 + (lb - lf) * (co theta1 - co (theta1 + gamma)),
        y1 + (lb - lf) * (si theta1 - si (theta1 + gamma)),
        theta1] := by
  unfold tractor_round_trip compute_trailer_pose_from_tractor_pose
    compute_tractor_pose_from_trailer_pose
  simp only [List.length_cons, List.length_nil, List.length_append,
    List.getD, List.cons_append, List.nil_append, ne_eq,
    OfNat.ofNat_ne_zero, not_false_eq_true, List.getD_cons_zero,
    List.getD_cons_succ, add_sub_cancel_right, reduceCtorEq, reduceIte,
    Except.ok.injEq, List.cons.injEq, and_true]
  norm_num [add_sub_cancel_right]
  refine ⟨by ring, by ring⟩


/-! The collision checker `is_collision` (source lines 392-416) and the
expansion `calc_next_node` (source lines 279-319). -/

section CollisionAndExpansion

variable {α : Type} [LinearOrderedField α] [FloorRing α]

/-- Model of the `scipy` KD-tree query
`P.kdtree.query_ball_point([cx, cy], r)`: the indices of the obstacle
points `zip(P.ox, P.oy)` within Euclidean distance `r` of the centre,
phrased with squared distances so it stays inside the field. -/
def query_ball (P : Para α) (cx cy r : α) : List ℕ :=
  (List.range (min P.ox.length P.oy.length)).filter
    (fun i => decide ((P.ox.getD i 0 - cx) ^ 2 + (P.oy.getD i 0 - cy) ^ 2 ≤ r ^ 2))

/-- The body of the outer loop of `is_collision` for one sampled pose:
centre offset `dl`, circumscribed query radius `r`, and the oriented
bounding-box test on every returned candidate (the `if not ids: continue`
of the source is a no-op here). -/
def pose_hits_obstacle (co si : α → α) (P : Para α) (ix iy iyaw : α) : Bool :=
  let car_length := C.RF α + C.RB α
  let safety_margin := P.xyreso
  let r := max (car_length / 2) (C.W α / 2) + safety_margin
  let dl := (C.RF α - C.RB α) / 2
  let cx := ix + dl * co iyaw
  let cy := iy + dl * si iyaw
  (query_ball P cx cy r).any (fun i =>
    let xo := P.ox.getD i 0 - cx
    let yo := P.oy.getD i 0 - cy
    let dx := xo * co iyaw + yo * si iyaw
    let dy := -xo * si iyaw + yo * co iyaw
    decide (|dx| < r ∧ |dy| < C.W α / 2 + safety_margin))

/-- `is_collision(x, y, yaw, P)`: some sampled pose hits some obstacle
(the early `return True` of the source is `List.any`). -/
def is_collision (co si : α → α) (x y yaw : List α) (P : Para α) : Bool :=
  (x.zip (y.zip yaw)).any (fun t => pose_hits_obstacle co si P t.1 t.2.1 t.2.2)

/-- The collision condition as the spec sentence behind claim C8 words
it: some sampled pose has a candidate obstacle, returned by the radius-r
query around the footprint centre, whose footprint-frame coordinates
satisfy the two strict bounds. -/
def collision_claimed (co si : α → α) (x y yaw : List α) (P : Para α) : Prop :=
  ∃ t ∈ x.zip (y.zip yaw),
    ∃ i ∈ query_ball P (t.1 + (C.RF α - C.RB α) / 2 * co t.2.2)
        (t.2.1 + (C.RF α - C.RB α) / 2 * si t.2.2)
        (max ((C.RF α + C.RB α) / 2) (C.W α / 2) + P.xyreso),
      |(P.ox.getD i 0 - (t.1 + (C.RF α - C.RB α) / 2 * co t.2.2)) * co t.2.2 +
          (P.oy.getD i 0 - (t.2.1 + (C.RF α - C.RB α) / 2 * si t.2.2)) * si t.2.2| <
          max ((C.RF α + C.RB α) / 2) (C.W α / 2) + P.xyreso ∧
      |(-(P.ox.getD i 0 - (t.1 + (C.RF α - C.RB α) / 2 * co t.2.2))) * si t.2.2 +
          (P.oy.getD i 0 - (t.2.1 + (C.RF α - C.RB α) / 2 * si t.2.2)) * co t.2.2| <
          C.W α / 2 + P.xyreso

/-- One integration substep of the sample loop of `calc_next_node`: from
the previous sample `(x, y, yaw)`, advance `d * C.MOVE_STEP` along the
previous heading and wrap the new heading through `rs.pi_2_pi`. -/
def next_sample (co si pi2pi : α → α) (d u : α) (p : α × α × α) : α × α × α :=
  (p.1 + d * C.MOVE_STEP α * co p.2.2,
   p.2.1 + d * C.MOVE_STEP α * si p.2.2,
   pi2pi (p.2.2 + d * C.MOVE_STEP α * u))

/-- The list of n successive samples obtained by iterating
`next_sample`. -/
def sample_chain (co si pi2pi : α → α) (d u : α) :
    ℕ → (α × α × α) → List (α × α × α)
  | 0, _ => []
  | n + 1, p =>
    let q := next_sample co si pi2pi d u p
    q :: sample_chain co si pi2pi d u n q

/-- `is_index_ok(xind, yind, xlist, ylist, yawlist, P)` (source lines
322-338): strict grid bounds on the terminal index, then a collision
check on every `C.COLLISION_CHECK_STEP`-th sample. -/
def is_index_ok (co si : α → α) (xind yind : ℤ)
    (xlist ylist yawlist : List α) (P : Para α) : Bool :=
  if xind ≤ P.minx ∨ xind ≥ P.maxx ∨ yind ≤ P.miny ∨ yind ≥ P.maxy then
    false
  else
    let nodex := everyKth C.COLLISION_CHECK_STEP 0 xlist
    let nodey := everyKth C.COLLISION_CHECK_STEP 0 ylist
    let nodeyaw := everyKth C.COLLISION_CHECK_STEP 0 yawlist
    !(is_collision co si nodex nodey nodeyaw P)

/-- `calc_next_node(n_curr, c_id, u, d, P)` (source lines 279-319).  The
source builds one sample before the loop and then `nlist - 1` more, each
from the previous one; the trailing `[-1]` accesses are `getLastD`. -/
def calc_next_node (co si pi2pi : α → α) (n_curr : Node α) (c_id : ℤ)
    (u d : α) (P : Para α) : Option (Node α) :=
  let step := C.XY_RESO α * 2
  let nlist := (⌈step / C.MOVE_STEP α⌉).toNat
  let p0 : α × α × α :=
    (n_curr.x.getLastD 0, n_curr.y.getLastD 0, n_curr.yaw.getLastD 0)
  let p1 := next_sample co si pi2pi d u p0
  let samples := p1 :: sample_chain co si pi2pi d u (nlist - 1) p1
  let xlist := samples.map (fun t => t.1)
  let ylist := samples.map (fun t => t.2.1)
  let yawlist := samples.map (fun t => t.2.2)
  let xind := pyround (xlist.getLastD 0 / P.xyreso)
  let yind := pyround (ylist.getLastD 0 / P.xyreso)
  let yawind := pyround (yawlist.getLastD 0 / P.yawreso)
  if is_index_ok co si xind yind xlist ylist yawlist P then
    let direction : ℤ := if 0 < d then 1 else -1
    let cost0 : α := if 0 < d then |step| else |step| * C.BACKWARD_COST α
    let cost1 := cost0 +
      (if direction ≠ n_curr.direction then C.GEAR_COST α else 0)
    let cost2 := cost1 + C.ANGULAR_VELOCITY_CHANGE_COST α * |n_curr.steer - u|
    some (Node.mk xind yind yawind direction xlist ylist yawlist
      (List.replicate xlist.length direction) u (n_curr.cost + cost2) c_id)
  else
    none

end CollisionAndExpansion

/-- C8: `is_collision` reports a collision iff some sampled pose has a
candidate obstacle, returned by the radius query with circumscribed
radius `r = max((RF+RB)/2, W/2) + Δxy` around the footprint centre
`(x + dl cos yaw, y + dl sin yaw)`, `dl = (RF-RB)/2`, whose
footprint-frame coordinates satisfy `|dx| < r` and `|dy| < W/2 + Δxy`
(the longitudinal test uses the circumscribed radius). -/
theorem c8_is_collision_iff {α : Type} [LinearOrderedField α]
    [FloorRing α] (co si : α → α) (x y yaw : List α) (P : Para α) :
    is_collision co si x y yaw P = true ↔ collision_claimed co si x y yaw P := by
  unfold is_collision pose_hits_obstacle collision_claimed
  simp only [List.any_eq_true, decide_eq_true_eq]

/-! Claims C5 and C2: the expansion cost and yaw wrapping. -/

/-- C5: whenever `calc_next_node(parent, u, d)` produces a child, the
child's g-cost is `g(parent) + base` with `base` the arc-length step
`2 * Δxy`, multiplied by `BACKWARD_COST` when `d < 0`, plus `GEAR_COST`
when the primitive gear differs from the parent's gear, plus
`ANGULAR_VELOCITY_CHANGE_COST * |parent.u - u|` (for the gears
`d ∈ 1, -1` produced by `calc_motion_set`). -/
theorem c5_next_node_cost {α : Type} [LinearOrderedField α] [FloorRing α]
    (co si pi2pi : α → α) (n_curr : Node α) (c_id : ℤ) (u d : α)
    (P : Para α) (node : Node α) (hd : d = 1 ∨ d = -1)
    (h : calc_next_node co si pi2pi n_curr c_id u d P = some node) :
    node.cost = n_curr.cost +
      ((if d < 0 then 2 * C.XY_RESO α * C.BACKWARD_COST α
        else 2 * C.XY_RESO α) +
       (if (if d < 0 then (-1 : ℤ) else 1) ≠ n_curr.direction then
          C.GEAR_COST α else 0) +
       C.ANGULAR_VELOCITY_CHANGE_COST α * |n_curr.steer - u|) := by
  simp only [calc_next_node] at h
  split at h
  · simp only [Option.some.injEq] at h
    subst h
    have habs : |C.XY_RESO α * 2| = C.XY_RESO α * 2 :=
      abs_of_pos (by norm_num [C.XY_RESO])
    rcases hd with rfl | rfl
    · have h01 : (0 : α) < 1 := by norm_num
      have h10 : ¬ (1 : α) < 0 := by norm_num
      simp only [if_pos h01, if_neg h10, habs]
      ring
    · have h0m : ¬ (0 : α) < -1 := by norm_num
      have hm0 : (-1 : α) < 0 := by norm_num
      simp only [if_pos hm0, if_neg h0m, habs]
      ring
  · exact absurd h (by simp)

def c5w_para : Para ℚ :=
  ⟨-100, -100, -13, 100, 100, 12, 200, 200, 25, 1/5, 1/12, [], []⟩

def c5w_parent : Node ℚ := ⟨0, 0, 0, 1, [0], [0], [0], [1], 0, 0, -1⟩

def c5w_child : Node ℚ :=
  ⟨2, 0, 0, 1, [1/5, 2/5], [0, 0], [0, 0], [1, 1], 0, 2/5, 0⟩

/-- Witness for C5: a concrete expansion (straight ahead, forward gear,
no obstacles) whose child cost realises the formula. -/
theorem c5_next_node_cost_witness :
    c5w_child.cost = c5w_parent.cost +
      ((if (1 : ℚ) < 0 then 2 * C.XY_RESO ℚ * C.BACKWARD_COST ℚ
        else 2 * C.XY_RESO ℚ) +
       (if (if (1 : ℚ) < 0 then (-1 : ℤ) else 1) ≠ c5w_parent.direction then
          C.GEAR_COST ℚ else 0) +
       C.ANGULAR_VELOCITY_CHANGE_COST ℚ * |c5w_parent.steer - 0|) :=
  c5_next_node_cost (fun _ => 1) (fun _ => 0) (fun t => t) c5w_parent 0 0 1
    c5w_para c5w_child (Or.inl rfl)
    (by norm_num [calc_next_node, next_sample, sample_chain, is_index_ok,
      is_collision, pose_hits_obstacle, everyKth, query_ball, pyround,
      c5w_para, c5w_parent, c5w_child, C.XY_RESO, C.MOVE_STEP,
      C.COLLISION_CHECK_STEP, C.BACKWARD_COST, C.GEAR_COST,
      C.ANGULAR_VELOCITY_CHANGE_COST, List.range_succ,
      List.replicate_succ])

/-- Modelled from the spec: `rs.pi_2_pi` of the external `reeds_shepp`
collaborator (its source is not under src); spec contract section 6.3
says `pi_2_pi(θ) → θ ∈ (−π, π]`.  Realised as the shift of θ by the
unique integer multiple of twice the half-turn `pival` that lands in
`(−pival, pival]`; the planner instantiates `pival := π`. -/
def pi_2_pi {α : Type} [LinearOrderedField α] [FloorRing α]
    (pival θ : α) : α :=
  θ - 2 * pival * ⌈(θ - pival) / (2 * pival)⌉

/-- The wrap function indeed lands in (−π, π]. -/
theorem pi_2_pi_mem_Ioc (θ : ℝ) :
    pi_2_pi Real.pi θ ∈ Set.Ioc (-Real.pi) Real.pi := by
  unfold pi_2_pi
  have hpi : (0 : ℝ) < Real.pi := Real.pi_pos
  have h2pi : (0 : ℝ) < 2 * Real.pi := by linarith
  set x : ℝ := (θ - Real.pi) / (2 * Real.pi) with hx
  have hle : x ≤ (⌈x⌉ : ℝ) := Int.le_ceil x
  have hlt : (⌈x⌉ : ℝ) < x + 1 := Int.ceil_lt_add_one x
  have hx2 : x * (2 * Real.pi) = θ - Real.pi := by
    rw [hx]
    field_simp
  have hle2 : θ - Real.pi ≤ (⌈x⌉ : ℝ) * (2 * Real.pi) := by
    calc θ - Real.pi = x * (2 * Real.pi) := hx2.symm
      _ ≤ (⌈x⌉ : ℝ) * (2 * Real.pi) :=
        mul_le_mul_of_nonneg_right hle (le_of_lt h2pi)
  have hlt2 : (⌈x⌉ : ℝ) * (2 * Real.pi) < θ - Real.pi + 2 * Real.pi := by
    have hm := mul_lt_mul_of_pos_right hlt h2pi
    rw [add_mul, one_mul, hx2] at hm
    linarith
  rw [Set.mem_Ioc]
  constructor
  · nlinarith [hlt2]
  · nlinarith [hle2]

/-- The wrap function fixes 0. -/
theorem pi_2_pi_zero : pi_2_pi Real.pi 0 = 0 := by
  unfold pi_2_pi
  have hne : (Real.pi : ℝ) ≠ 0 := Real.pi_ne_zero
  have h1 : ((0 : ℝ) - Real.pi) / (2 * Real.pi) = -(1 / 2) := by
    field_simp
    ring
  rw [h1]
  norm_num

/-- The start node built by `hybrid_astar_planning` (source lines
194-199): the discrete yaw index is computed from `rs.pi_2_pi(syaw)`,
but the stored one-sample trajectory keeps the RAW `syaw`. -/
def nstart_of {α : Type} [LinearOrderedField α] [FloorRing α]
    (pi2pi : α → α) (sx sy syaw xyreso yawreso : α) : Node α :=
  Node.mk (pyround (sx / xyreso)) (pyround (sy / xyreso))
    (pyround (pi2pi syaw / yawreso)) 1 [sx] [sy] [syaw] [1] 0 0 (-1)

/-- C2, counterexample: calling the planner with start yaw 4 (outside
(−π, π]) produces a start SearchNode whose trajectory segment stores the
raw yaw 4, and 4 ∉ (−π, π]; `extract_path` later copies this sample into
the returned Path unchanged. -/
theorem c2_counterexample :
    (nstart_of (pi_2_pi Real.pi) 0 0 4 (C.XY_RESO ℝ) (C.YAW_RESO ℝ)).yaw = [4] ∧
      (4 : ℝ) ∉ Set.Ioc (-Real.pi) Real.pi := by
  refine ⟨rfl, ?_⟩
  intro hmem
  have h4 : Real.pi < 4 := by linarith [Real.pi_lt_d2]
  exact absurd hmem.2 (by linarith)

/-- Every sample in a `sample_chain` has a yaw of the form
`pi2pi(...)`, hence in any set containing the range of `pi2pi`. -/
theorem sample_chain_yaw_mem {α : Type} [LinearOrderedField α]
    (co si pi2pi : α → α) (d u : α) (S : Set α)
    (hS : ∀ t, pi2pi t ∈ S) :
    ∀ (n : ℕ) (p q : α × α × α),
      q ∈ sample_chain co si pi2pi d u n p → q.2.2 ∈ S := by
  intro n
  induction n with
  | zero => intro p q hq; simp [sample_chain] at hq
  | succ m ih =>
    intro p q hq
    simp only [sample_chain, List.mem_cons] at hq
    rcases hq with rfl | hq
    · exact hS _
    · exact ih _ q hq

/-- C2, amended: every yaw stored in the trajectory segment of a node
produced by `calc_next_node` has passed through `rs.pi_2_pi` and lies in
(−π, π]; the start and goal nodes, by contrast, store the raw input yaw
unwrapped (see the counterexample), so the invariant fails exactly
there when the input yaw is outside (−π, π]. -/
theorem c2_yaw_wrapped (co si : ℝ → ℝ) (n_curr : Node ℝ) (c_id : ℤ)
    (u d : ℝ) (P : Para ℝ) (node : Node ℝ)
    (h : calc_next_node co si (pi_2_pi Real.pi) n_curr c_id u d P =
      some node) :
    ∀ v ∈ node.yaw, v ∈ Set.Ioc (-Real.pi) Real.pi := by
  simp only [calc_next_node] at h
  split at h
  · simp only [Option.some.injEq] at h
    subst h
    intro v hv
    simp only [List.map_cons, List.mem_cons, List.mem_map] at hv
    rcases hv with rfl | ⟨q, hq, rfl⟩
    · exact pi_2_pi_mem_Ioc _
    · exact sample_chain_yaw_mem co si (pi_2_pi Real.pi) d u _
        pi_2_pi_mem_Ioc _ _ q hq
  · exact absurd h (by simp)

def c2w_para (α : Type) [LinearOrderedField α] : Para α :=
  ⟨-100, -100, -13, 100, 100, 12, 200, 200, 25, 1/5, 1/12, [], []⟩

def c2w_parent (α : Type) [LinearOrderedField α] : Node α :=
  ⟨0, 0, 0, 1, [0], [0], [0], [1], 0, 0, -1⟩

def c2w_child (α : Type) [LinearOrderedField α] : Node α :=
  ⟨2, 0, 0, 1, [1/5, 2/5], [0, 0], [0, 0], [1, 1], 0, 2/5, 0⟩

/-- Witness for C2 (amended): a concrete expansion over ℝ whose stored
yaw 0 indeed lies in (−π, π]. -/
theorem c2_yaw_wrapped_witness :
    (0 : ℝ) ∈ Set.Ioc (-Real.pi) Real.pi :=
  c2_yaw_wrapped (fun _ => 1) (fun _ => 0) (c2w_parent ℝ) 0 0 1
    (c2w_para ℝ) (c2w_child ℝ)
    (by norm_num [calc_next_node, next_sample, sample_chain, is_index_ok,
      is_collision, pose_hits_obstacle, everyKth, query_ball, pyround,
      c2w_para, c2w_parent, c2w_child, C.XY_RESO, C.MOVE_STEP,
      C.COLLISION_CHECK_STEP, C.BACKWARD_COST, C.GEAR_COST,
      C.ANGULAR_VELOCITY_CHANGE_COST, List.range_succ,
      List.replicate_succ, pi_2_pi_zero])
    0 (by simp [c2w_child])

/-! The holonomic heuristic: `get_motion`, `obstacles_map`,
`check_holonomic_node`, `u_cost`, `calc_holonomic_index` and the
Dijkstra of `calc_holonomic_heuristic_with_obstacle` (source lines
109-191).  The loop is fuelled; `math.hypot` is a parameter. -/

section Holonomic

variable {α : Type} [LinearOrderedField α] [FloorRing α]

/-- `get_motion()`: the eight grid moves. -/
def get_motion : List (ℤ × ℤ) :=
  [(-1, 0), (-1, 1), (0, 1), (1, 1), (1, 0), (1, -1), (0, -1), (-1, -1)]

/-- `u_cost(u) = math.hypot(u[0], u[1])`. -/
def u_cost (hypot : α → α → α) (u : ℤ × ℤ) : α :=
  hypot (u.1 : α) (u.2 : α)

/-- `obstacles_map(P, rr)` (source lines 115-130): `obsmap[x][y]` is true
iff some obstacle grid point is within `rr / P.xyreso` of `(x + minx,
y + miny)` (the early `break` of the source is `List.any`). -/
def obstacles_map (hypot : α → α → α) (P : Para α) (rr : α) :
    List (List Bool) :=
  let ox_grid := P.ox.map (fun x => pyround (x / P.xyreso))
  let oy_grid := P.oy.map (fun y => pyround (y / P.xyreso))
  (List.range P.xw.toNat).map (fun x =>
    (List.range P.yw.toNat).map (fun y =>
      (ox_grid.zip oy_grid).any (fun o =>
        decide (hypot ((o.1 - ((x : ℤ) + P.minx) : ℤ) : α)
            ((o.2 - ((y : ℤ) + P.miny) : ℤ) : α) ≤ rr / P.xyreso))))

/-- `check_holonomic_node(node, P, obsmap)` (source lines 180-188):
strict bounds, then the obstacle-map lookup (always in range after the
bounds check when the map has the `P.xw x P.yw` shape). -/
def check_holonomic_node (node : HolonomicNode α) (P : Para α)
    (obsmap : List (List Bool)) : Bool :=
  if node.x ≤ P.minx ∨ node.x ≥ P.maxx ∨
      node.y ≤ P.miny ∨ node.y ≥ P.maxy then
    false
  else
    !((obsmap.getD (node.x - P.minx).toNat []).getD
        (node.y - P.miny).toNat false)

/-- `calc_holonomic_index(node, P)`. -/
def calc_holonomic_index (node : HolonomicNode α) (P : Para α) : ℤ :=
  (node.y - P.miny) * P.xw + (node.x - P.minx)

/-- State of the Dijkstra loop: the open dict, the closed dict and the
`heapq` content (each entry a `(cost, index)` pair, keyed here by
index). -/
structure DState (α : Type) where
  openSet : List (ℤ × HolonomicNode α)
  closedSet : List (ℤ × HolonomicNode α)
  pq : List (ℤ × α)
  deriving Repr, DecidableEq

/-- Result of one iteration of the Dijkstra `while True` loop. -/
inductive DStepRes (α : Type) where
  | done (closed : List (ℤ × HolonomicNode α))
  | next (st : DState α)
  | error
  deriving Repr, DecidableEq

/-- The inner `for i in range(len(motion))` loop of the Dijkstra: build
the neighbour, validate it, then insert / decrease-key.  The decrease
branch mutates only `cost` and `pind` of the stored node and pushes
nothing on the heap, exactly as the source does. -/
def dexpand (hypot : α → α → α) (P : Para α) (obsmap : List (List Bool))
    (closed : List (ℤ × HolonomicNode α)) (n_curr : HolonomicNode α)
    (ind : ℤ) :
    List (ℤ × ℤ) → List (ℤ × HolonomicNode α) → List (ℤ × α) →
      List (ℤ × HolonomicNode α) × List (ℤ × α)
  | [], op, pq => (op, pq)
  | m :: rest, op, pq =>
    let node : HolonomicNode α :=
      ⟨n_curr.x + m.1, n_curr.y + m.2, n_curr.cost + u_cost hypot m, ind⟩
    if check_holonomic_node node P obsmap then
      let n_ind := calc_holonomic_index node P
      if (alookup closed n_ind).isSome then
        dexpand hypot P obsmap closed n_curr ind rest op pq
      else
        match alookup op n_ind with
        | some exist =>
          if exist.cost > node.cost then
            dexpand hypot P obsmap closed n_curr ind rest
              (ainsert op n_ind ⟨exist.x, exist.y, node.cost, ind⟩) pq
          else
            dexpand hypot P obsmap closed n_curr ind rest op pq
        | none =>
          dexpand hypot P obsmap closed n_curr ind rest
            (ainsert op n_ind node)
            (pq ++ [(calc_holonomic_index node P, node.cost)])
    else
      dexpand hypot P obsmap closed n_curr ind rest op pq

/-- One iteration of the Dijkstra loop (source lines 146-171): stop when
the open set is empty, otherwise pop the least-cost heap entry, move the
node to the closed set and expand its eight neighbours.  A failing heap
pop or dict lookup is an `error`. -/
def dsearch_step (hypot : α → α → α) (P : Para α)
    (obsmap : List (List Bool)) (st : DState α) : DStepRes α :=
  if st.openSet = [] then
    .done st.closedSet
  else
    match pqPopMin st.pq with
    | none => .error
    | some ((ind, _), pq2) =>
      match alookup st.openSet ind with
      | none => .error
      | some n_curr =>
        let closed2 := ainsert st.closedSet ind n_curr
        let open2 := aremove st.openSet ind
        let r := dexpand hypot P obsmap closed2 n_curr ind get_motion
          open2 pq2
        .next ⟨r.1, closed2, r.2⟩

/-- `n` successive `.next` iterations of the Dijkstra loop. -/
def dstepN (hypot : α → α → α) (P : Para α) (obsmap : List (List Bool)) :
    ℕ → DState α → Option (DState α)
  | 0, st => some st
  | n + 1, st =>
    match dsearch_step hypot P obsmap st with
    | .next st2 => dstepN hypot P obsmap n st2
    | _ => none

/-- The fuelled Dijkstra loop, returning the closed set it finished
with. -/
def dloop (hypot : α → α → α) (P : Para α) (obsmap : List (List Bool)) :
    ℕ → DState α → Option (List (ℤ × HolonomicNode α))
  | 0, _ => none
  | n + 1, st =>
    match dsearch_step hypot P obsmap st with
    | .done closed => some closed
    | .next st2 => dloop hypot P obsmap n st2
    | .error => none

/-- The goal node of `calc_holonomic_heuristic_with_obstacle` (source
line 134). -/
def dgoal_node (node : Node α) (P : Para α) : HolonomicNode α :=
  ⟨pyround (node.x.getLastD 0 / P.xyreso),
   pyround (node.y.getLastD 0 / P.xyreso), 0, -1⟩

/-- The initial Dijkstra state (source lines 140-144). -/
def dinit (node : Node α) (P : Para α) : DState α :=
  let n_goal := dgoal_node node P
  let gind := calc_holonomic_index n_goal P
  ⟨[(gind, n_goal)], [], [(gind, 0)]⟩

/-- The `hmap` write loop over the closed set (source lines 173-176),
with Python list-index semantics (`pySet2D` wraps one negative step and
fails out of range). -/
def build_hmap (P : Para α) (closed : List (ℤ × HolonomicNode α)) :
    Option (List (List (WithTop α))) :=
  closed.foldlM
    (fun hm e => pySet2D hm (e.2.x - P.minx) (e.2.y - P.miny)
      ((e.2.cost : α) : WithTop α))
    (List.replicate P.xw.toNat (List.replicate P.yw.toNat (⊤ : WithTop α)))

/-- `calc_holonomic_heuristic_with_obstacle(node, P, radius)` (source
lines 132-178), fuelled. -/
def calc_holonomic_heuristic_with_obstacle (hypot : α → α → α)
    (node : Node α) (P : Para α) (radius : α) (fuel : ℕ) :
    Option (List (List (WithTop α))) :=
  let obsmap := obstacles_map hypot P radius
  match dloop hypot P obsmap fuel (dinit node P) with
  | none => none
  | some closed => build_hmap P closed

end Holonomic

/-! Basic facts about the dictionary and Python-list models. -/

section MapLemmas

variable {β : Type}

theorem alookup_mem {m : List (ℤ × β)} {k : ℤ} {b : β}
    (h : alookup m k = some b) : (k, b) ∈ m := by
  induction m with
  | nil => simp [alookup] at h
  | cons e rest ih =>
    simp only [alookup] at h
    split at h
    · rename_i hk
      simp only [Option.some.injEq] at h
      subst h
      rw [← hk]
      exact List.mem_cons_self e rest
    · exact List.mem_cons_of_mem e (ih h)

theorem mem_akeys {m : List (ℤ × β)} {k : ℤ} :
    k ∈ akeys m ↔ ∃ b, (k, b) ∈ m := by
  unfold akeys
  constructor
  · intro h
    obtain ⟨e, he, hk⟩ := List.mem_map.mp h
    exact ⟨e.2, by simpa [← hk] using he⟩
  · intro ⟨b, hb⟩
    exact List.mem_map.mpr ⟨(k, b), hb, rfl⟩

theorem alookup_isSome_iff {m : List (ℤ × β)} {k : ℤ} :
    (alookup m k).isSome = true ↔ k ∈ akeys m := by
  induction m with
  | nil => simp [alookup, akeys]
  | cons e rest ih =>
    simp only [alookup, akeys, List.map_cons, List.mem_cons]
    split
    · rename_i hk
      simp [hk]
    · rename_i hk
      rw [ih]
      unfold akeys
      constructor
      · exact fun h => Or.inr h
      · intro h
        rcases h with h | h
        · exact absurd h.symm hk
        · exact h

theorem alookup_eq_none_iff {m : List (ℤ × β)} {k : ℤ} :
    alookup m k = none ↔ k ∉ akeys m := by
  rw [← alookup_isSome_iff]
  cases h : alookup m k <;> simp [h]

theorem mem_ainsert {m : List (ℤ × β)} {k : ℤ} {b : β} {e : ℤ × β}
    (h : e ∈ ainsert m k b) : e = (k, b) ∨ e ∈ m := by
  induction m with
  | nil => simpa [ainsert] using h
  | cons e1 rest ih =>
    simp only [ainsert] at h
    split at h
    · rename_i hk
      rcases List.mem_cons.mp h with h | h
      · subst h
        exact Or.inl (by rw [hk])
      · exact Or.inr (List.mem_cons_of_mem _ h)
    · rcases List.mem_cons.mp h with h | h
      · exact Or.inr (by simp [h])
      · rcases ih h with h | h
        · exact Or.inl h
        · exact Or.inr (List.mem_cons_of_mem _ h)

theorem akeys_ainsert_mem {m : List (ℤ × β)} {k k2 : ℤ} {b : β} :
    k2 ∈ akeys (ainsert m k b) ↔ k2 ∈ akeys m ∨ k2 = k := by
  induction m with
  | nil => simp [ainsert, akeys]
  | cons e1 rest ih =>
    simp only [ainsert]
    split
    · rename_i hk
      subst hk
      simp only [akeys, List.map_cons, List.mem_cons]
      tauto
    · simp only [akeys, List.map_cons, List.mem_cons] at ih ⊢
      rw [ih]
      tauto

theorem ainsert_ne_nil {m : List (ℤ × β)} {k : ℤ} {b : β} :
    ainsert m k b ≠ [] := by
  cases m with
  | nil => simp [ainsert]
  | cons e rest =>
    simp only [ainsert]
    split <;> simp

theorem ainsert_cons_of_ne {e : ℤ × β} {rest : List (ℤ × β)} {k : ℤ}
    {b : β} (h : e.1 ≠ k) :
    ainsert (e :: rest) k b = e :: ainsert rest k b := by
  obtain ⟨k1, b1⟩ := e
  simp only [ainsert]
  rw [if_neg h]

theorem mem_aremove {m : List (ℤ × β)} {k : ℤ} {e : ℤ × β} :
    e ∈ aremove m k ↔ e ∈ m ∧ e.1 ≠ k := by
  unfold aremove
  simp

theorem akeys_aremove_mem {m : List (ℤ × β)} {k k2 : ℤ} :
    k2 ∈ akeys (aremove m k) ↔ k2 ∈ akeys m ∧ k2 ≠ k := by
  constructor
  · intro h
    obtain ⟨b, hb⟩ := mem_akeys.mp h
    obtain ⟨hm, hne⟩ := mem_aremove.mp hb
    exact ⟨mem_akeys.mpr ⟨b, hm⟩, hne⟩
  · intro ⟨h, hne⟩
    obtain ⟨b, hb⟩ := mem_akeys.mp h
    exact mem_akeys.mpr ⟨b, mem_aremove.mpr ⟨hb, hne⟩⟩

theorem pqPopMin_none_iff {π : Type} [LinearOrder π]
    {pq : List (ℤ × π)} : pqPopMin pq = none ↔ pq = [] := by
  cases pq with
  | nil => simp [pqPopMin]
  | cons e rest =>
    simp only [pqPopMin]
    constructor
    · intro h
      split at h <;> simp_all
      split at h <;> simp_all
    · intro h
      simp at h

theorem pqPopMin_parts {π : Type} [LinearOrder π]
    {pq rest : List (ℤ × π)} {e : ℤ × π}
    (h : pqPopMin pq = some (e, rest)) :
    ∃ l1 l2, pq = l1 ++ e :: l2 ∧ rest = l1 ++ l2 := by
  induction pq generalizing e rest with
  | nil => simp [pqPopMin] at h
  | cons e1 tail ih =>
    obtain ⟨k1, p1⟩ := e1
    simp only [pqPopMin] at h
    split at h
    · rename_i htail
      simp only [Option.some.injEq, Prod.mk.injEq] at h
      rw [pqPopMin_none_iff] at htail
      subst htail
      exact ⟨[], [], by simp [← h.1, ← h.2]⟩
    · rename_i k2 p2 rest2 htail
      split at h
      · simp only [Option.some.injEq, Prod.mk.injEq] at h
        exact ⟨[], tail, by simp [← h.1, ← h.2]⟩
      · simp only [Option.some.injEq, Prod.mk.injEq] at h
        obtain ⟨l1, l2, h1, h2⟩ := ih htail
        refine ⟨(k1, p1) :: l1, l2, ?_, ?_⟩
        · simp [h1, ← h.1]
        · rw [← h.2, h2]
          simp

theorem pqPopMin_mem {π : Type} [LinearOrder π]
    {pq rest : List (ℤ × π)} {e : ℤ × π}
    (h : pqPopMin pq = some (e, rest)) : e ∈ pq := by
  obtain ⟨l1, l2, h1, _⟩ := pqPopMin_parts h
  simp [h1]

theorem pqPopMin_rest_subset {π : Type} [LinearOrder π]
    {pq rest : List (ℤ × π)} {e : ℤ × π}
    (h : pqPopMin pq = some (e, rest)) : ∀ e2 ∈ rest, e2 ∈ pq := by
  obtain ⟨l1, l2, h1, h2⟩ := pqPopMin_parts h
  intro e2 he2
  rw [h2] at he2
  rw [h1]
  rcases List.mem_append.mp he2 with h3 | h3
  · exact List.mem_append.mpr (Or.inl h3)
  · exact List.mem_append.mpr (Or.inr (List.mem_cons_of_mem _ h3))

end MapLemmas

/-! Invariants of the Dijkstra loop, towards claims C6 and C7. -/

section DijkstraInvariants

variable {α : Type} [LinearOrderedField α] [FloorRing α]

/-- Well-formedness of one open/closed Dijkstra entry: non-negative
cost, key equal to the node index, coordinates strictly inside the
grid. -/
def DEntryOK (P : Para α) (e : ℤ × HolonomicNode α) : Prop :=
  0 ≤ e.2.cost ∧ e.1 = calc_holonomic_index e.2 P ∧
    P.minx < e.2.x ∧ e.2.x < P.maxx ∧ P.miny < e.2.y ∧ e.2.y < P.maxy

/-- Invariant of the Dijkstra loop state: entries are well formed,
closed keys never reappear in the open set, and the goal entry is the
head of the closed set as soon as the closed set is non-empty. -/
structure DInv (P : Para α) (gind : ℤ) (n_goal : HolonomicNode α)
    (st : DState α) : Prop where
  open_ok : ∀ e ∈ st.openSet, DEntryOK P e
  closed_ok : ∀ e ∈ st.closedSet, DEntryOK P e
  disj : ∀ k ∈ akeys st.closedSet, k ∉ akeys st.openSet
  start_shape : st.closedSet = [] →
    st.openSet = [(gind, n_goal)] ∧ st.pq = [(gind, (0 : α))]
  closed_head : st.closedSet ≠ [] →
    ∃ rest, st.closedSet = (gind, n_goal) :: rest ∧ gind ∉ akeys rest

theorem check_holonomic_node_bounds {node : HolonomicNode α}
    {P : Para α} {obsmap : List (List Bool)}
    (h : check_holonomic_node node P obsmap = true) :
    P.minx < node.x ∧ node.x < P.maxx ∧
      P.miny < node.y ∧ node.y < P.maxy := by
  unfold check_holonomic_node at h
  split at h
  · exact absurd h (by simp)
  · rename_i hcond
    push_neg at hcond
    exact ⟨hcond.1, hcond.2.1, hcond.2.2.1, hcond.2.2.2⟩

/-- The expansion loop keeps every open entry well formed and never
inserts a closed key into the open set. -/
theorem dexpand_ok {hypot : α → α → α} (hhyp : ∀ a b, 0 ≤ hypot a b)
    {P : Para α} {obsmap : List (List Bool)}
    {closed : List (ℤ × HolonomicNode α)} {n_curr : HolonomicNode α}
    {ind : ℤ} (hc : 0 ≤ n_curr.cost) :
    ∀ (ms : List (ℤ × ℤ)) (op : List (ℤ × HolonomicNode α))
      (pq : List (ℤ × α)),
      (∀ e ∈ op, DEntryOK P e) →
      (∀ k ∈ akeys closed, k ∉ akeys op) →
      (∀ e ∈ (dexpand hypot P obsmap closed n_curr ind ms op pq).1,
        DEntryOK P e) ∧
      (∀ k ∈ akeys closed,
        k ∉ akeys (dexpand hypot P obsmap closed n_curr ind ms op pq).1) := by
  intro ms
  induction ms with
  | nil =>
    intro op pq hop hdisj
    exact ⟨hop, hdisj⟩
  | cons m rest ih =>
    intro op pq hop hdisj
    simp only [dexpand]
    split
    · rename_i hcheck
      split
    -- closed hit: skip
      · exact ih op pq hop hdisj
      · rename_i hnotclosed
        have hbounds := check_holonomic_node_bounds hcheck
        have hnotmem : calc_holonomic_index
            ⟨n_curr.x + m.1, n_curr.y + m.2,
              n_curr.cost + u_cost hypot m, ind⟩ P ∉ akeys closed := by
          intro hmem
          exact hnotclosed (alookup_isSome_iff.mpr hmem)
        split
        · rename_i exist hexist
          split
          · apply ih
            · intro e he
              rcases mem_ainsert he with rfl | he
              · obtain ⟨hc1, hk1, hb1⟩ := hop _ (alookup_mem hexist)
                refine ⟨add_nonneg hc (hhyp _ _), ?_, hb1⟩
                rw [hk1]
                simp [calc_holonomic_index]
              · exact hop e he
            · intro k hk hmem
              rw [akeys_ainsert_mem] at hmem
              rcases hmem with hmem | rfl
              · exact hdisj k hk hmem
              · exact hnotmem hk
          · exact ih op pq hop hdisj
        · apply ih
          · intro e he
            rcases mem_ainsert he with rfl | he
            · exact ⟨add_nonneg hc (hhyp _ _), rfl, hbounds⟩
            · exact hop e he
          · intro k hk hmem
            rw [akeys_ainsert_mem] at hmem
            rcases hmem with hmem | rfl
            · exact hdisj k hk hmem
            · exact hnotmem hk
    · exact ih op pq hop hdisj

end DijkstraInvariants

section DijkstraInvariants2

variable {α : Type} [LinearOrderedField α] [FloorRing α]

/-- One `.next` iteration of the Dijkstra preserves the loop
invariant. -/
theorem dsearch_step_next_inv {hypot : α → α → α}
    (hhyp : ∀ a b, 0 ≤ hypot a b) {P : Para α}
    {obsmap : List (List Bool)} {gind : ℤ} {n_goal : HolonomicNode α}
    {st st2 : DState α} (hInv : DInv P gind n_goal st)
    (h : dsearch_step hypot P obsmap st = DStepRes.next st2) :
    DInv P gind n_goal st2 := by
  unfold dsearch_step at h
  split at h
  · exact absurd h (by simp)
  · rename_i hne
    split at h
    · exact absurd h (by simp)
    · rename_i ind pr pq2 hpop
      split at h
      · exact absurd h (by simp)
      · rename_i n_curr hlook
        simp only [DStepRes.next.injEq] at h
        subst h
        have hmem : (ind, n_curr) ∈ st.openSet := alookup_mem hlook
        have hcurr : DEntryOK P (ind, n_curr) := hInv.open_ok _ hmem
        have hindopen : ind ∈ akeys st.openSet :=
          mem_akeys.mpr ⟨n_curr, hmem⟩
        have hindnotclosed : ind ∉ akeys st.closedSet := by
          intro hmem2
          exact hInv.disj ind hmem2 hindopen
        have hclosed2ok : ∀ e ∈ ainsert st.closedSet ind n_curr,
            DEntryOK P e := by
          intro e he
          rcases mem_ainsert he with rfl | he
          · exact hcurr
          · exact hInv.closed_ok e he
        have hdisj2 : ∀ k ∈ akeys (ainsert st.closedSet ind n_curr),
            k ∉ akeys (aremove st.openSet ind) := by
          intro k hk hmem2
          rw [akeys_ainsert_mem] at hk
          rw [akeys_aremove_mem] at hmem2
          rcases hk with hk | rfl
          · exact hInv.disj k hk hmem2.1
          · exact hmem2.2 rfl
        have hexp := @dexpand_ok α _ _ hypot hhyp P obsmap
          (ainsert st.closedSet ind n_curr) n_curr ind hcurr.1 get_motion
          (aremove st.openSet ind) pq2
          (fun e he => hInv.open_ok e (mem_aremove.mp he).1) hdisj2
        refine ⟨hexp.1, hclosed2ok, hexp.2, ?_, ?_⟩
        · intro hcl
          exact absurd hcl ainsert_ne_nil
        · intro _
          cases hcl : st.closedSet with
          | nil =>
            obtain ⟨hop, hpq⟩ := hInv.start_shape hcl
            rw [hpq] at hpop
            have : pqPopMin [(gind, (0 : α))] =
                some ((gind, (0 : α)), []) := rfl
            rw [this] at hpop
            simp only [Option.some.injEq, Prod.mk.injEq] at hpop
            obtain ⟨⟨hind, _⟩, _⟩ := hpop
            subst hind
            rw [hop] at hlook
            have : n_curr = n_goal := by
              simp [alookup] at hlook
              exact hlook.symm
            subst this
            exact ⟨[], by simp [hcl, ainsert], by simp [akeys]⟩
          | cons e0 rest0 =>
            obtain ⟨rest, hrest, hgnot⟩ := hInv.closed_head (by simp [hcl])
            rw [← hcl] at *
            have hgind_closed : gind ∈ akeys st.closedSet := by
              rw [hrest]
              simp [akeys]
            have hne2 : gind ≠ ind := by
              intro hgi
              subst hgi
              exact hindnotclosed hgind_closed
            rw [hrest, ainsert_cons_of_ne hne2]
            refine ⟨ainsert rest ind n_curr, rfl, ?_⟩
            intro hmem3
            rw [akeys_ainsert_mem] at hmem3
            rcases hmem3 with hmem3 | h3
            · exact hgnot hmem3
            · exact hne2 h3

/-- When the fuelled Dijkstra run finishes, every closed entry is well
formed and the goal entry heads the closed set with no duplicate goal
key. -/
theorem dloop_closed_props {hypot : α → α → α}
    (hhyp : ∀ a b, 0 ≤ hypot a b) {P : Para α}
    {obsmap : List (List Bool)} {gind : ℤ} {n_goal : HolonomicNode α}
    {fuel : ℕ} {st : DState α} {closed : List (ℤ × HolonomicNode α)}
    (hInv : DInv P gind n_goal st)
    (h : dloop hypot P obsmap fuel st = some closed) :
    (∀ e ∈ closed, DEntryOK P e) ∧
      ∃ rest, closed = (gind, n_goal) :: rest ∧ gind ∉ akeys rest := by
  induction fuel generalizing st with
  | zero => simp [dloop] at h
  | succ n ih =>
    simp only [dloop] at h
    split at h
    · rename_i closed2 hs
      simp only [Option.some.injEq] at h
      subst h
      unfold dsearch_step at hs
      split at hs
      · rename_i hopen
        simp only [DStepRes.done.injEq] at hs
        subst hs
        have hclne : st.closedSet ≠ [] := by
          intro hcl
          obtain ⟨hop, _⟩ := hInv.start_shape hcl
          rw [hop] at hopen
          simp at hopen
        obtain ⟨rest, hrest, hgnot⟩ := hInv.closed_head hclne
        exact ⟨hInv.closed_ok, rest, hrest, hgnot⟩
      · split at hs
        · exact absurd hs (by simp)
        · split at hs
          · exact absurd hs (by simp)
          · exact absurd hs (by simp)
    · rename_i st2 hs
      exact ih (dsearch_step_next_inv hhyp hInv hs) h
    · exact absurd h (by simp)

end DijkstraInvariants2

/-! Facts about the Python 2-d list reads and writes used by the hmap
construction. -/

section GridLemmas

variable {γ : Type}

/-- Shape predicate: X rows of length Y. -/
def Shape2D (X Y : ℕ) (hm : List (List γ)) : Prop :=
  hm.length = X ∧ ∀ row ∈ hm, row.length = Y

theorem pyGet_set_of_ne {l : List γ} {i i2 : ℤ} {b : γ}
    (hi : 0 ≤ i) (hi2 : 0 ≤ i2) (hne : i2 ≠ i) :
    pyGet (l.set i.toNat b) i2 = pyGet l i2 := by
  unfold pyGet
  rw [List.length_set]
  by_cases h1 : 0 ≤ i2 ∧ i2 < (l.length : ℤ)
  · rw [if_pos h1, if_pos h1]
    exact List.get?_set_ne b l (by omega)
  · rw [if_neg h1, if_neg h1]
    by_cases h2 : -((l.length : ℤ)) ≤ i2 ∧ i2 < 0
    · exact absurd h2.2 (not_lt.mpr hi2)
    · rw [if_neg h2, if_neg h2]

theorem pyGet_set_self {l : List γ} {i : ℤ} {b : γ}
    (hi : 0 ≤ i) (hlt : i < (l.length : ℤ)) :
    pyGet (l.set i.toNat b) i = some b := by
  unfold pyGet
  rw [List.length_set]
  rw [if_pos ⟨hi, hlt⟩]
  exact List.get?_set_eq_of_lt b (by omega)

theorem pyGet_replicate {n : ℕ} {b : γ} {i : ℤ}
    (hi : 0 ≤ i) (hlt : i < (n : ℤ)) :
    pyGet (List.replicate n b) i = some b := by
  unfold pyGet
  rw [List.length_replicate, if_pos ⟨hi, hlt⟩, List.get?_eq_getElem?,
    List.getElem?_replicate, if_pos (by omega)]

theorem pyGet_replicate_eq {n : ℕ} {b v : γ} {i : ℤ}
    (hi : 0 ≤ i) (h : pyGet (List.replicate n b) i = some v) : v = b := by
  unfold pyGet at h
  rw [List.length_replicate] at h
  split at h
  · rw [List.get?_eq_getElem?, List.getElem?_replicate] at h
    split at h
    · simp only [Option.some.injEq] at h
      exact h.symm
    · simp at h
  · split at h
    · rename_i h2
      exact absurd h2.2 (not_lt.mpr hi)
    · simp at h

theorem pyGet2D_replicate_eq {X Y : ℕ} {b v : γ} {i j : ℤ}
    (hi : 0 ≤ i) (hj : 0 ≤ j)
    (h : pyGet2D (List.replicate X (List.replicate Y b)) i j = some v) :
    v = b := by
  unfold pyGet2D at h
  split at h
  · simp at h
  · rename_i row hrow
    have := pyGet_replicate_eq hi hrow
    subst this
    exact pyGet_replicate_eq hj h

theorem pyGet2D_replicate {X Y : ℕ} {b : γ} {i j : ℤ}
    (hi : 0 ≤ i) (hilt : i < (X : ℤ)) (hj : 0 ≤ j) (hjlt : j < (Y : ℤ)) :
    pyGet2D (List.replicate X (List.replicate Y b)) i j = some b := by
  unfold pyGet2D
  rw [pyGet_replicate hi hilt]
  exact pyGet_replicate hj hjlt

/-- An in-bounds 2-d write succeeds, preserves the shape, sets the
target cell and leaves every other canonically addressed cell
unchanged. -/
theorem pySet2D_pos {hm : List (List γ)} {i j : ℤ} {b : γ} {X Y : ℕ}
    (hsh : Shape2D X Y hm) (hi1 : 0 ≤ i) (hi2 : i < (X : ℤ))
    (hj1 : 0 ≤ j) (hj2 : j < (Y : ℤ)) :
    ∃ hm2, pySet2D hm i j b = some hm2 ∧ Shape2D X Y hm2 ∧
      pyGet2D hm2 i j = some b ∧
      (∀ i2 j2 : ℤ, 0 ≤ i2 → 0 ≤ j2 → ¬(i2 = i ∧ j2 = j) →
        pyGet2D hm2 i2 j2 = pyGet2D hm i2 j2) := by
  obtain ⟨hlen, hrows⟩ := hsh
  have hilen : i < (hm.length : ℤ) := by rw [hlen]; exact hi2
  have hgetrow : ∃ row, hm.get? i.toNat = some row := by
    have : i.toNat < hm.length := by omega
    exact ⟨_, List.get?_eq_get this⟩
  obtain ⟨row, hrow⟩ := hgetrow
  have hrowmem : row ∈ hm := List.get?_mem hrow
  have hrowlen : row.length = Y := hrows row hrowmem
  have hjlen : j < (row.length : ℤ) := by rw [hrowlen]; exact hj2
  have hpg : pyGet hm i = some row := by
    unfold pyGet
    rw [if_pos ⟨hi1, hilen⟩]
    exact hrow
  have hps : pySet row j b = some (row.set j.toNat b) := by
    unfold pySet
    rw [if_pos ⟨hj1, hjlen⟩]
  have hps2 : pySet hm i (row.set j.toNat b) =
      some (hm.set i.toNat (row.set j.toNat b)) := by
    unfold pySet
    rw [if_pos ⟨hi1, hilen⟩]
  refine ⟨hm.set i.toNat (row.set j.toNat b), ?_, ?_, ?_, ?_⟩
  · simp only [pySet2D, hpg, hps, hps2]
  · constructor
    · rw [List.length_set, hlen]
    · intro r hr
      rcases List.mem_or_eq_of_mem_set hr with hr | hr
      · exact hrows r hr
      · rw [hr, List.length_set]
        exact hrowlen
  · unfold pyGet2D
    rw [pyGet_set_self hi1 hilen]
    exact pyGet_set_self hj1 hjlen
  · intro i2 j2 hi2n hj2n hne
    unfold pyGet2D
    by_cases hii : i2 = i
    · subst hii
      rw [pyGet_set_self hi1 hilen, hpg]
      have hjj : j2 ≠ j := fun h => hne ⟨rfl, h⟩
      exact pyGet_set_of_ne hj1 hj2n hjj
    · rw [pyGet_set_of_ne hi1 hi2n hii]

end GridLemmas

section HmapProps

variable {α : Type} [LinearOrderedField α] [FloorRing α]

/-- Properties of the hmap write loop: shape preservation, origin of
every readable value, and preservation of cells no closed node writes
to. -/
theorem build_fold_props {P : Para α} {X Y : ℕ}
    (hX : (X : ℤ) = P.maxx - P.minx) (hY : (Y : ℤ) = P.maxy - P.miny) :
    ∀ (closed : List (ℤ × HolonomicNode α))
      (hm hm2 : List (List (WithTop α))),
      Shape2D X Y hm →
      (∀ e ∈ closed, DEntryOK P e) →
      List.foldlM
        (fun hm e => pySet2D hm (e.2.x - P.minx) (e.2.y - P.miny)
          ((e.2.cost : α) : WithTop α)) hm closed = some hm2 →
      Shape2D X Y hm2 ∧
      (∀ i j : ℤ, 0 ≤ i → 0 ≤ j → ∀ v, pyGet2D hm2 i j = some v →
        pyGet2D hm i j = some v ∨
          ∃ e ∈ closed, v = ((e.2.cost : α) : WithTop α)) ∧
      (∀ i j : ℤ, 0 ≤ i → 0 ≤ j →
        (∀ e ∈ closed, ¬(e.2.x - P.minx = i ∧ e.2.y - P.miny = j)) →
        pyGet2D hm2 i j = pyGet2D hm i j) := by
  intro closed
  induction closed with
  | nil =>
    intro hm hm2 hsh _ h
    simp only [List.foldlM_nil, pure, Option.some.injEq] at h
    subst h
    exact ⟨hsh, fun i j _ _ v hv => Or.inl hv, fun i j _ _ _ => rfl⟩
  | cons e rest ih =>
    intro hm hm2 hsh hok h
    simp only [List.foldlM_cons] at h
    have heok := hok e (List.mem_cons_self e rest)
    obtain ⟨hcost, hkey, hb1, hb2, hb3, hb4⟩ := heok
    obtain ⟨hm1, hw, hsh1, hget1, hother1⟩ :=
      @pySet2D_pos (WithTop α) hm (e.2.x - P.minx) (e.2.y - P.miny)
        ((e.2.cost : α) : WithTop α) X Y hsh
        (by omega) (by omega) (by omega) (by omega)
    rw [hw] at h
    simp only [Option.bind_eq_bind, Option.some_bind] at h
    obtain ⟨hsh2, hval2, hpres2⟩ :=
      ih hm1 hm2 hsh1 (fun e2 he2 => hok e2 (List.mem_cons_of_mem e he2)) h
    refine ⟨hsh2, ?_, ?_⟩
    · intro i j hi hj v hv
      rcases hval2 i j hi hj v hv with hv1 | ⟨e2, he2, hve⟩
      · by_cases hcell : i = e.2.x - P.minx ∧ j = e.2.y - P.miny
        · rw [hcell.1, hcell.2, hget1] at hv1
          simp only [Option.some.injEq] at hv1
          exact Or.inr ⟨e, List.mem_cons_self e rest, hv1.symm⟩
        · rw [hother1 i j hi hj hcell] at hv1
          exact Or.inl hv1
      · exact Or.inr ⟨e2, List.mem_cons_of_mem e he2, hve⟩
    · intro i j hi hj hnone
      have he := hnone e (List.mem_cons_self e rest)
      rw [hpres2 i j hi hj
        (fun e2 he2 => hnone e2 (List.mem_cons_of_mem e he2))]
      exact hother1 i j hi hj (fun hc => he ⟨hc.1.symm, hc.2.symm⟩)

/-- C6: the hmap returned by `calc_holonomic_heuristic_with_obstacle`
is 0 at the goal cell, non-negative at every canonically addressed
cell, and every cell never closed by the Dijkstra expansion (blocked or
unreachable) retains the value +∞ (`⊤`). -/
theorem c6_holonomic_hmap (hypot : α → α → α) (node : Node α)
    (P : Para α) (radius : α) (fuel : ℕ)
    (hmap : List (List (WithTop α)))
    (hhyp : ∀ a b, 0 ≤ hypot a b)
    (hxw : P.xw = P.maxx - P.minx) (hyw : P.yw = P.maxy - P.miny)
    (hb : P.minx < (dgoal_node node P).x ∧ (dgoal_node node P).x < P.maxx ∧
      P.miny < (dgoal_node node P).y ∧ (dgoal_node node P).y < P.maxy)
    (hrun : calc_holonomic_heuristic_with_obstacle hypot node P radius
      fuel = some hmap) :
    pyGet2D hmap ((dgoal_node node P).x - P.minx)
        ((dgoal_node node P).y - P.miny) = some ((0 : α) : WithTop α) ∧
    (∀ i j : ℤ, 0 ≤ i → 0 ≤ j → ∀ v, pyGet2D hmap i j = some v →
      0 ≤ v) ∧
    (∀ closed, dloop hypot P (obstacles_map hypot P radius) fuel
        (dinit node P) = some closed →
      ∀ i j : ℤ, 0 ≤ i → i < (P.xw : ℤ) → 0 ≤ j → j < (P.yw : ℤ) →
        (∀ e ∈ closed, ¬(e.2.x - P.minx = i ∧ e.2.y - P.miny = j)) →
        pyGet2D hmap i j = some (⊤ : WithTop α)) := by
  simp only [calc_holonomic_heuristic_with_obstacle] at hrun
  split at hrun
  · exact absurd hrun (by simp)
  · rename_i closed0 hdloop
    have hInv0 : DInv P (calc_holonomic_index (dgoal_node node P) P)
        (dgoal_node node P) (dinit node P) := by
      refine ⟨?_, ?_, ?_, ?_, ?_⟩
      · intro e he
        simp only [dinit, List.mem_singleton] at he
        subst he
        exact ⟨le_refl 0, rfl, hb.1, hb.2.1, hb.2.2.1, hb.2.2.2⟩
      · intro e he
        simp [dinit] at he
      · intro k hk
        simp [dinit, akeys] at hk
      · intro _
        exact ⟨rfl, rfl⟩
      · intro hcl
        simp [dinit] at hcl
    obtain ⟨hallok, rest, hrest, hgnotin⟩ :=
      dloop_closed_props hhyp hInv0 hdloop
    have hxwpos : 0 < P.xw := by
      have := hb.1
      have := hb.2.1
      omega
    have hywpos : 0 < P.yw := by
      have := hb.2.2.1
      have := hb.2.2.2
      omega
    have hXcast : ((P.xw.toNat : ℕ) : ℤ) = P.maxx - P.minx := by omega
    have hYcast : ((P.yw.toNat : ℕ) : ℤ) = P.maxy - P.miny := by omega
    have hsh0 : Shape2D P.xw.toNat P.yw.toNat
        (List.replicate P.xw.toNat
          (List.replicate P.yw.toNat (⊤ : WithTop α))) := by
      constructor
      · exact List.length_replicate _ _
      · intro row hrow
        rw [List.eq_of_mem_replicate hrow]
        exact List.length_replicate _ _
    obtain ⟨hsh2, hval2, hpres2⟩ :=
      build_fold_props hXcast hYcast closed0 _ hmap hsh0 hallok hrun
    have hgx := hb.1
    have hgx2 := hb.2.1
    have hgy := hb.2.2.1
    have hgy2 := hb.2.2.2
    refine ⟨?_, ?_, ?_⟩
    · -- goal cell reads 0
      rw [hrest] at hrun
      unfold build_hmap at hrun
      simp only [List.foldlM_cons] at hrun
      obtain ⟨hm1, hw, hsh1, hget1, hother1⟩ :=
        @pySet2D_pos (WithTop α)
          (List.replicate P.xw.toNat
            (List.replicate P.yw.toNat (⊤ : WithTop α)))
          ((dgoal_node node P).x - P.minx) ((dgoal_node node P).y - P.miny)
          (((dgoal_node node P).cost : α) : WithTop α) P.xw.toNat
          P.yw.toNat hsh0 (by omega) (by omega) (by omega) (by omega)
      rw [hw] at hrun
      simp only [Option.bind_eq_bind, Option.some_bind] at hrun
      obtain ⟨hsh1b, hval1b, hpres1⟩ := build_fold_props hXcast hYcast
        rest hm1 hmap hsh1
        (fun e2 he2 =>
          hallok e2 (by rw [hrest]; exact List.mem_cons_of_mem _ he2))
        hrun
      have hcellskip : ∀ e2 ∈ rest,
          ¬(e2.2.x - P.minx = (dgoal_node node P).x - P.minx ∧
            e2.2.y - P.miny = (dgoal_node node P).y - P.miny) := by
        intro e2 he2 hc
        have he2ok :=
          hallok e2 (by rw [hrest]; exact List.mem_cons_of_mem _ he2)
        have hx : e2.2.x = (dgoal_node node P).x := by omega
        have hy : e2.2.y = (dgoal_node node P).y := by omega
        have hkey : e2.1 = calc_holonomic_index (dgoal_node node P) P := by
          rw [he2ok.2.1]
          unfold calc_holonomic_index
          rw [hx, hy]
        apply hgnotin
        rw [← hkey]
        exact mem_akeys.mpr ⟨e2.2, he2⟩
      rw [hpres1 _ _ (by omega) (by omega) hcellskip]
      exact hget1
    · intro i j hi hj v hv
      rcases hval2 i j hi hj v hv with hv0 | ⟨e2, he2, hve⟩
      · rw [pyGet2D_replicate_eq hi hj hv0]
        exact le_top
      · rw [hve]
        exact_mod_cast WithTop.coe_le_coe.mpr (hallok e2 he2).1
    · intro closed hclosed i j hi hilt hj hjlt hnone
      rw [hdloop] at hclosed
      simp only [Option.some.injEq] at hclosed
      subst hclosed
      rw [hpres2 i j hi hj hnone]
      exact pyGet2D_replicate (by omega) (by omega) (by omega) (by omega)

end HmapProps

def c6w_hypot : ℚ → ℚ → ℚ := fun a b => a * a + b * b

def c6w_para : Para ℚ := ⟨0, 0, -4, 2, 2, 3, 2, 2, 7, 1, 1, [0, 2], [0, 2]⟩

def c6w_goal : Node ℚ := ⟨1, 1, 0, 1, [1], [1], [0], [1], 0, 0, -1⟩

def c6w_hmap : List (List (WithTop ℚ)) :=
  [[⊤, ⊤], [⊤, ((0 : ℚ) : WithTop ℚ)]]

/-- The heuristic run of the C6 witness evaluates as expected on a
2 x 2 grid whose cells are all blocked: only the goal cell is closed. -/
theorem c6w_run : calc_holonomic_heuristic_with_obstacle c6w_hypot
    c6w_goal c6w_para 100 3 = some c6w_hmap := by
  have h2 : (2 : ℤ).toNat = 2 := rfl
  have hobs : obstacles_map c6w_hypot c6w_para 100 =
      [[true, true], [true, true]] := by
    norm_num [obstacles_map, c6w_hypot, c6w_para, pyround, h2,
      List.range_succ, List.range_zero,
      List.flatMap_cons, List.flatMap_nil, List.map_cons, List.map_nil]
  have hinit : dinit c6w_goal c6w_para =
      ⟨[(3, ⟨1, 1, 0, -1⟩)], [], [(3, 0)]⟩ := by
    norm_num [dinit, dgoal_node, calc_holonomic_index, pyround, c6w_goal,
      c6w_para]
  have hstep1 : dsearch_step c6w_hypot c6w_para
      [[true, true], [true, true]]
      ⟨[(3, ⟨1, 1, 0, -1⟩)], [], [(3, 0)]⟩ =
      DStepRes.next ⟨[], [(3, ⟨1, 1, 0, -1⟩)], []⟩ := by
    norm_num [dsearch_step, pqPopMin, alookup, ainsert, aremove, dexpand,
      get_motion, check_holonomic_node, calc_holonomic_index, u_cost,
      c6w_hypot, c6w_para]
  have hstep2 : dsearch_step c6w_hypot c6w_para
      [[true, true], [true, true]]
      ⟨[], [(3, ⟨1, 1, 0, -1⟩)], []⟩ =
      DStepRes.done [(3, ⟨1, 1, 0, -1⟩)] := by
    norm_num [dsearch_step]
  have hbuild : build_hmap c6w_para [(3, ⟨1, 1, 0, -1⟩)] =
      some c6w_hmap := by
    norm_num [build_hmap, pySet2D, pySet, pyGet, c6w_para, c6w_hmap,
      List.replicate]
  simp only [calc_holonomic_heuristic_with_obstacle, hobs, hinit, dloop,
    hstep1, hstep2, hbuild]

/-- Witness for C6: on the concrete blocked 2 x 2 grid the returned
hmap carries 0 at the goal cell. -/
theorem c6_holonomic_hmap_witness :
    pyGet2D c6w_hmap ((dgoal_node c6w_goal c6w_para).x - c6w_para.minx)
      ((dgoal_node c6w_goal c6w_para).y - c6w_para.miny) =
      some ((0 : ℚ) : WithTop ℚ) :=
  (c6_holonomic_hmap c6w_hypot c6w_goal c6w_para 100 3 c6w_hmap
    (fun a b => by
      simp only [c6w_hypot]
      exact add_nonneg (mul_self_nonneg a) (mul_self_nonneg b))
    (by decide) (by decide)
    (by norm_num [dgoal_node, pyround, c6w_goal, c6w_para])
    c6w_run).1

/-! The hybrid A* search loop (source lines 193-248), the analytic
Reeds-Shepp expansion (lines 341-389), the path extractor (lines
251-276) and the planner assembly. -/

section HybridSearch

variable {α : Type} [LinearOrderedField α] [FloorRing α]

/-- `calc_index(node, P)`. -/
def calc_index (node : Node α) (P : Para α) : ℤ :=
  (node.yawind - P.minyaw) * P.xw * P.yw +
    (node.yind - P.miny) * P.xw + (node.xind - P.minx)

/-- `is_same_grid(node1, node2)`. -/
def is_same_grid (node1 node2 : Node α) : Bool :=
  decide (node1.xind = node2.xind ∧ node1.yind = node2.yind ∧
    node1.yawind = node2.yawind)

/-- `calc_hybrid_cost(node, hmap, P)` with Python list indexing: the
priority is `node.cost + C.H_COST * hmap[xind - minx][yind - miny]`,
computed in `WithTop` since hmap entries may be `inf`. -/
def calc_hybrid_cost (node : Node α) (hmap : List (List (WithTop α)))
    (P : Para α) : Option (WithTop α) :=
  match pyGet2D hmap (node.xind - P.minx) (node.yind - P.miny) with
  | none => none
  | some hv => some (((node.cost : α) : WithTop α) +
      ((C.H_COST α : α) : WithTop α) * hv)

/-- `calc_motion_set()` (source lines 443-450): `np.arange` produces
`N_STEER` angular-velocity samples (floats idealised as exact values),
`direc` is computed from the length of `steer` before `steer` is
doubled. -/
def calc_motion_set (α : Type) [LinearOrderedField α] :
    List α × List α :=
  let angular_velocities := (List.range C.N_STEER).map
    (fun k => C.MIN_ANGULAR_VELOCITY α + (k : α) *
      ((C.MAX_ANGULAR_VELOCITY α - C.MIN_ANGULAR_VELOCITY α) /
        (C.N_STEER : α)))
  let steer0 := angular_velocities ++ [0] ++
    angular_velocities.map (fun v => -v)
  let direc := List.replicate steer0.length (1 : α) ++
    List.replicate steer0.length (-1 : α)
  (steer0 ++ steer0, direc)

/-- Stable insertion into a cost-ordered list, modelling the heapdict
priority queue over RS paths (pops in ascending `calc_rs_path_cost`;
tie order inside `heapdict` is unspecified, modelled as stable). -/
def insertByCost (p : RSPath α) : List (RSPath α) → List (RSPath α)
  | [] => [p]
  | q :: rest =>
    if calc_rs_path_cost q ≤ calc_rs_path_cost p then
      q :: insertByCost p rest
    else
      p :: q :: rest

/-- Sort the RS paths by ascending cost. -/
def sortByCost (l : List (RSPath α)) : List (RSPath α) :=
  l.foldl (fun acc p => insertByCost p acc) []

/-- `analystic_expantion(node, ngoal, P)` (source lines 362-389):
generate all RS paths from the node's terminal pose to the goal pose
(`rsgen` models `rs.calc_all_paths` at radius `C.MAX_CURVATURE_RADIUS`
and step `C.MOVE_STEP`), order them by `calc_rs_path_cost` and return
the first whose sampled poses are collision free. -/
def analystic_expantion
    (rsgen : α → α → α → α → α → α → List (RSPath α)) (co si : α → α)
    (node ngoal : Node α) (P : Para α) : Option (RSPath α) :=
  let paths := rsgen (node.x.getLastD 0) (node.y.getLastD 0)
    (node.yaw.getLastD 0) (ngoal.x.getLastD 0) (ngoal.y.getLastD 0)
    (ngoal.yaw.getLastD 0)
  if paths = [] then none
  else
    (sortByCost paths).find? (fun path =>
      !(is_collision co si (everyKth C.COLLISION_CHECK_STEP 0 path.x)
        (everyKth C.COLLISION_CHECK_STEP 0 path.y)
        (everyKth C.COLLISION_CHECK_STEP 0 path.yaw) P))

/-- `update_node_with_analystic_expantion(n_curr, ngoal, P)` (source
lines 341-359): on RS success, build the terminal node from the interior
samples `[1:-1]` of the RS path. -/
def update_node_with_analystic_expantion
    (rsgen : α → α → α → α → α → α → List (RSPath α)) (co si : α → α)
    (n_curr ngoal : Node α) (P : Para α) : Option (Node α) :=
  match analystic_expantion rsgen co si n_curr ngoal P with
  | none => none
  | some path =>
    some (Node.mk n_curr.xind n_curr.yind n_curr.yawind n_curr.direction
      ((path.x.drop 1).dropLast) ((path.y.drop 1).dropLast)
      ((path.yaw.drop 1).dropLast) ((path.directions.drop 1).dropLast)
      0 (n_curr.cost + calc_rs_path_cost path) (calc_index n_curr P))

/-- Static context of the hybrid search loop: the library parameters,
the parameters `P`, the heuristic map, the goal node and the primitive
sets, all fixed before the `while True` loop. -/
structure HCtx (α : Type) where
  co : α → α
  si : α → α
  pi2pi : α → α
  rsgen : α → α → α → α → α → α → List (RSPath α)
  P : Para α
  hmap : List (List (WithTop α))
  ngoal : Node α
  steer : List α
  direc : List α

/-- State of the hybrid search loop. -/
structure SearchState (α : Type) where
  openSet : List (ℤ × Node α)
  closedSet : List (ℤ × Node α)
  pq : List (ℤ × WithTop α)

/-- Result of one iteration of the hybrid `while True` loop. -/
inductive StepRes (α : Type) where
  | noPath
  | found (fnode : Node α) (closed : List (ℤ × Node α))
  | next (st : SearchState α)
  | error

/-- The successor loop of one hybrid iteration (source lines 229-246):
generate each primitive's node, skip invalid or closed ones, insert
fresh keys, overwrite open keys on lower cost.  A failing heuristic
lookup is an error (`none`). -/
def hexpand (ctx : HCtx α) (n_curr : Node α) (c_id : ℤ)
    (closed : List (ℤ × Node α)) :
    List (α × α) → List (ℤ × Node α) → List (ℤ × WithTop α) →
      Option (List (ℤ × Node α) × List (ℤ × WithTop α))
  | [], op, pq => some (op, pq)
  | ud :: rest, op, pq =>
    match calc_next_node ctx.co ctx.si ctx.pi2pi n_curr c_id ud.1 ud.2
        ctx.P with
    | none => hexpand ctx n_curr c_id closed rest op pq
    | some node =>
      let node_ind := calc_index node ctx.P
      if (alookup closed node_ind).isSome then
        hexpand ctx n_curr c_id closed rest op pq
      else
        match alookup op node_ind with
        | none =>
          match calc_hybrid_cost node ctx.hmap ctx.P with
          | none => none
          | some f =>
            hexpand ctx n_curr c_id closed rest
              (ainsert op node_ind node) (ainsert pq node_ind f)
        | some exist =>
          if exist.cost > node.cost then
            match calc_hybrid_cost node ctx.hmap ctx.P with
            | none => none
            | some f =>
              hexpand ctx n_curr c_id closed rest
                (ainsert op node_ind node) (ainsert pq node_ind f)
          else
            hexpand ctx n_curr c_id closed rest op pq

/-- One iteration of the hybrid search loop (source lines 213-247):
return `noPath` when the open set is empty, otherwise pop the best key,
move its node to the closed set, try the analytic expansion, and expand
the primitives otherwise. -/
def search_step (ctx : HCtx α) (st : SearchState α) : StepRes α :=
  if st.openSet = [] then
    .noPath
  else
    match pqPopMin st.pq with
    | none => .error
    | some ((ind, _), pq2) =>
      match alookup st.openSet ind with
      | none => .error
      | some n_curr =>
        match update_node_with_analystic_expantion ctx.rsgen ctx.co
            ctx.si n_curr ctx.ngoal ctx.P with
        | some fpath => .found fpath (ainsert st.closedSet ind n_curr)
        | none =>
          match hexpand ctx n_curr ind (ainsert st.closedSet ind n_curr)
              (ctx.steer.zip ctx.direc) (aremove st.openSet ind) pq2 with
          | none => .error
          | some r => .next ⟨r.1, ainsert st.closedSet ind n_curr, r.2⟩

/-- `n` successive `.next` iterations of the hybrid loop. -/
def stepN (ctx : HCtx α) : ℕ → SearchState α → Option (SearchState α)
  | 0, st => some st
  | n + 1, st =>
    match search_step ctx st with
    | .next st2 => stepN ctx n st2
    | _ => none

/-- Result of the fuelled hybrid loop. -/
inductive LoopRes (α : Type) where
  | noPath
  | found (fnode : Node α) (closed : List (ℤ × Node α))
  | error
  | fuelOut

/-- The fuelled hybrid `while True` loop. -/
def hybrid_loop (ctx : HCtx α) : ℕ → SearchState α → LoopRes α
  | 0, _ => .fuelOut
  | n + 1, st =>
    match search_step ctx st with
    | .noPath => .noPath
    | .found fnode closed => .found fnode closed
    | .next st2 => hybrid_loop ctx n st2
    | .error => .error

/-- The accumulation loop of `extract_path` (source lines 256-266),
fuelled; a missing parent key is a `KeyError` (`none`). -/
def extract_loop (closed : List (ℤ × Node α)) (nstart : Node α) :
    ℕ → Node α → List α × List α × List α × List ℤ × α →
      Option (List α × List α × List α × List ℤ × α)
  | 0, _, _ => none
  | fuel + 1, node, acc =>
    let acc2 := (acc.1 ++ node.x.reverse, acc.2.1 ++ node.y.reverse,
      acc.2.2.1 ++ node.yaw.reverse,
      acc.2.2.2.1 ++ node.directions.reverse, acc.2.2.2.2 + node.cost)
    if is_same_grid node nstart then
      some acc2
    else
      match alookup closed node.pind with
      | none => none
      | some parent => extract_loop closed nstart fuel parent acc2

/-- `extract_path(closed, ngoal, nstart)` (source lines 251-276): walk
the parent chain, reverse the accumulated sequences, then overwrite
`direction[0] <- direction[1]` - an IndexError (`none`) when the
reconstructed path has fewer than two samples. -/
def extract_path (closed : List (ℤ × Node α)) (ngoal nstart : Node α)
    (fuel : ℕ) : Option (Path α) :=
  match extract_loop closed nstart fuel ngoal ([], [], [], [], 0) with
  | none => none
  | some acc =>
    match acc.2.2.2.1.reverse with
    | _ :: d1 :: drest =>
      some (Path.mk acc.1.reverse acc.2.1.reverse acc.2.2.1.reverse
        (d1 :: d1 :: drest) acc.2.2.2.2)
    | _ => none

/-- `calc_parameters(ox_grid, oy_grid, xyreso, yawreso)` (source lines
472-491); `min()`/`max()` of an empty list raise (`none`). -/
def calc_parameters (ox_grid oy_grid : List ℤ) (xyreso yawreso : α) :
    Option (Para α) :=
  match ox_grid.min?, oy_grid.min?, ox_grid.max?, oy_grid.max? with
  | some minx, some miny, some maxx, some maxy =>
    some (Para.mk minx miny (pyround (-(C.PI α) / yawreso) - 1)
      maxx maxy (pyround (C.PI α / yawreso))
      (maxx - minx) (maxy - miny)
      (pyround (C.PI α / yawreso) - (pyround (-(C.PI α) / yawreso) - 1))
      xyreso yawreso
      (ox_grid.map (fun i => (i : α) * xyreso))
      (oy_grid.map (fun i => (i : α) * xyreso)))
  | _, _, _, _ => none

/-- Result of a planner call: the `None` return, a `Path`, or an
uncaught Python exception. -/
inductive PlanRes (α : Type) where
  | failure
  | path (p : Path α)
  | error

/-- `hybrid_astar_planning(sx, sy, syaw, gx, gy, gyaw, ox_grid, oy_grid,
xyreso, yawreso, radius)` (source lines 193-248) assembled end to end,
with fuel for the two loops and the extractor. -/
def hybrid_astar_planning (hypot : α → α → α) (co si pi2pi : α → α)
    (rsgen : α → α → α → α → α → α → List (RSPath α))
    (sx sy syaw gx gy gyaw : α) (ox_grid oy_grid : List ℤ)
    (xyreso yawreso radius : α) (dfuel hfuel efuel : ℕ) : PlanRes α :=
  match calc_parameters ox_grid oy_grid xyreso yawreso with
  | none => .error
  | some P =>
    let nstart := nstart_of pi2pi sx sy syaw xyreso yawreso
    let ngoal := nstart_of pi2pi gx gy gyaw xyreso yawreso
    match calc_holonomic_heuristic_with_obstacle hypot ngoal P radius
        dfuel with
    | none => .error
    | some hmap =>
      let ms := calc_motion_set α
      let sind := calc_index nstart P
      match calc_hybrid_cost nstart hmap P with
      | none => .error
      | some f0 =>
        let ctx : HCtx α := ⟨co, si, pi2pi, rsgen, P, hmap, ngoal,
          ms.1, ms.2⟩
        match hybrid_loop ctx hfuel ⟨[(sind, nstart)], [], [(sind, f0)]⟩
            with
        | .noPath => .failure
        | .error => .error
        | .fuelOut => .error
        | .found fnode closed =>
          match extract_path closed fnode nstart efuel with
          | none => .error
          | some p => .path p

end HybridSearch

/-! Key-set facts used by the no-re-expansion invariants. -/

section KeyLemmas

variable {β : Type}

theorem akeys_ainsert_nodup {m : List (ℤ × β)} {k : ℤ} {b : β}
    (h : (akeys m).Nodup) : (akeys (ainsert m k b)).Nodup := by
  induction m with
  | nil => simp [ainsert, akeys]
  | cons e rest ih =>
    obtain ⟨k1, b1⟩ := e
    simp only [akeys, List.map_cons, List.nodup_cons] at h
    simp only [ainsert]
    split
    · simp only [akeys, List.map_cons, List.nodup_cons]
      exact h
    · rename_i hne
      simp only [akeys, List.map_cons, List.nodup_cons]
      refine ⟨?_, ih h.2⟩
      intro hmem
      rw [show (List.map Prod.fst (ainsert rest k b)) =
        akeys (ainsert rest k b) from rfl, akeys_ainsert_mem] at hmem
      rcases hmem with hmem | rfl
      · exact h.1 hmem
      · exact hne rfl

theorem akeys_aremove_filter {m : List (ℤ × β)} {k : ℤ} :
    akeys (aremove m k) = (akeys m).filter (fun k2 => k2 ≠ k) := by
  unfold akeys aremove
  rw [List.map_filter]
  rfl

theorem akeys_aremove_nodup {m : List (ℤ × β)} {k : ℤ}
    (h : (akeys m).Nodup) : (akeys (aremove m k)).Nodup := by
  rw [akeys_aremove_filter]
  exact h.filter _

theorem pqPopMin_keys {π : Type} [LinearOrder π]
    {pq rest : List (ℤ × π)} {e : ℤ × π}
    (hnd : (akeys pq).Nodup) (h : pqPopMin pq = some (e, rest)) :
    (akeys rest).Nodup ∧ e.1 ∈ akeys pq ∧
      (∀ k, k ∈ akeys rest ↔ k ∈ akeys pq ∧ k ≠ e.1) := by
  obtain ⟨l1, l2, h1, h2⟩ := pqPopMin_parts h
  subst h1
  subst h2
  simp only [akeys, List.map_append, List.map_cons] at hnd ⊢
  have hnd2 := hnd
  rw [List.nodup_append] at hnd2
  obtain ⟨hndl1, hndc, hdisj⟩ := hnd2
  rw [List.nodup_cons] at hndc
  refine ⟨?_, ?_, ?_⟩
  · rw [List.nodup_append]
    exact ⟨hndl1, hndc.2, fun a ha hb => hdisj ha
      (List.mem_cons_of_mem _ hb)⟩
  · simp
  · intro k
    constructor
    · intro hk
      rcases List.mem_append.mp hk with hk | hk
      · refine ⟨List.mem_append.mpr (Or.inl hk), ?_⟩
        intro hke
        exact hdisj hk (by simp [hke])
      · refine ⟨List.mem_append.mpr (Or.inr
          (List.mem_cons_of_mem _ hk)), ?_⟩
        intro hke
        exact hndc.1 (by rw [← hke]; exact hk)
    · intro ⟨hk, hke⟩
      rcases List.mem_append.mp hk with hk | hk
      · exact List.mem_append.mpr (Or.inl hk)
      · rcases List.mem_cons.mp hk with hk | hk
        · exact absurd hk hke
        · exact List.mem_append.mpr (Or.inr hk)

end KeyLemmas

section C4

variable {α : Type} [LinearOrderedField α] [FloorRing α]

/-- One hybrid iteration reports `noPath` exactly when its open set is
empty: the `return None` at the top of the loop body is the only way
the loop can yield the null result. -/
theorem search_step_noPath_iff (ctx : HCtx α) (st : SearchState α) :
    search_step ctx st = StepRes.noPath ↔ st.openSet = [] := by
  unfold search_step
  by_cases hne : st.openSet = []
  · rw [if_pos hne]
    simp [hne]
  · rw [if_neg hne]
    constructor
    · intro h
      split at h
      · exact absurd h (by simp)
      · split at h
        · exact absurd h (by simp)
        · split at h
          · exact absurd h (by simp)
          · split at h
            · exact absurd h (by simp)
            · exact absurd h (by simp)
    · intro h
      exact absurd h hne

theorem stepN_next {ctx : HCtx α} {st st2 : SearchState α} {k : ℕ}
    (h : search_step ctx st = StepRes.next st2) :
    stepN ctx (k + 1) st = stepN ctx k st2 := by
  simp [stepN, h]

/-- C4, amended: the hybrid loop returns the null result (`None`) if
and only if some iteration reachable through plain `.next` steps (so
with no earlier Reeds-Shepp success, error or return) starts with an
empty open set.  The other half of the original claim - that in every
other case a Path is returned and never an exception - is refuted by
the counterexample. -/
theorem c4_nopath_iff_open_empties (ctx : HCtx α) (fuel : ℕ)
    (st : SearchState α) :
    hybrid_loop ctx fuel st = LoopRes.noPath ↔
      ∃ (k : ℕ) (st2 : SearchState α), k < fuel ∧
        stepN ctx k st = some st2 ∧ st2.openSet = [] := by
  induction fuel generalizing st with
  | zero =>
    simp only [hybrid_loop]
    constructor
    · intro h
      exact absurd h (by simp)
    · rintro ⟨k, st2, hk, _, _⟩
      exact absurd hk (Nat.not_lt_zero k)
  | succ n ih =>
    simp only [hybrid_loop]
    cases hs : search_step ctx st with
    | noPath =>
      constructor
      · intro _
        exact ⟨0, st, Nat.succ_pos n, rfl,
          (search_step_noPath_iff ctx st).mp hs⟩
      · intro _
        rfl
    | found f c =>
      constructor
      · intro h
        exact absurd h (by simp)
      · rintro ⟨k, st2, hk, hstep, hempty⟩
        cases k with
        | zero =>
          simp only [stepN, Option.some.injEq] at hstep
          subst hstep
          rw [(search_step_noPath_iff ctx st).mpr hempty] at hs
          exact absurd hs (by simp)
        | succ j =>
          simp [stepN, hs] at hstep
    | next st2 =>
      rw [ih st2]
      constructor
      · rintro ⟨k, st3, hk, hstep, hempty⟩
        exact ⟨k + 1, st3, by omega, by rw [stepN_next hs]; exact hstep,
          hempty⟩
      · rintro ⟨k, st3, hk, hstep, hempty⟩
        cases k with
        | zero =>
          simp only [stepN, Option.some.injEq] at hstep
          subst hstep
          rw [(search_step_noPath_iff ctx st).mpr hempty] at hs
          exact absurd hs (by simp)
        | succ j =>
          rw [stepN_next hs] at hstep
          exact ⟨j, st3, by omega, hstep, hempty⟩
    | error =>
      constructor
      · intro h
        exact absurd h (by simp)
      · rintro ⟨k, st2, hk, hstep, hempty⟩
        cases k with
        | zero =>
          simp only [stepN, Option.some.injEq] at hstep
          subst hstep
          rw [(search_step_noPath_iff ctx st).mpr hempty] at hs
          exact absurd hs (by simp)
        | succ j =>
          simp [stepN, hs] at hstep

end C4

/-! Concrete planner scenario for the C4 counterexample: start and goal
coincide at (2, 2, 0) inside a 4 x 4 grid with far-away corner
obstacles; the external RS generator returns the single-sample identity
path, so the analytic expansion succeeds immediately and `extract_path`
then fails on `direction[1]`. -/

def c4w_hypot : ℚ → ℚ → ℚ := fun a b => a * a + b * b

def c4w_rsgen : ℚ → ℚ → ℚ → ℚ → ℚ → ℚ → List (RSPath ℚ) :=
  fun _ _ _ _ _ _ => [⟨[2], [2], [0], [1], [0]⟩]

def c4w_para : Para ℚ := ⟨0, 0, -4, 4, 4, 3, 4, 4, 7, 1, 1, [0, 4], [0, 4]⟩

def c4w_start : Node ℚ := ⟨2, 2, 0, 1, [2], [2], [0], [1], 0, 0, -1⟩

def c4w_hmap : List (List (WithTop ℚ)) :=
  [[⊤, ⊤, ⊤, ⊤], [⊤, ⊤, ⊤, ⊤], [⊤, ⊤, ((0 : ℚ) : WithTop ℚ), ⊤],
   [⊤, ⊤, ⊤, ⊤]]

def c4w_fnode : Node ℚ := ⟨2, 2, 0, 1, [], [], [], [], 0, 1, 74⟩

theorem c4w_hrun : calc_holonomic_heuristic_with_obstacle c4w_hypot
    c4w_start c4w_para 100 3 = some c4w_hmap := by
  have h4 : (4 : ℤ).toNat = 4 := rfl
  have hobs : obstacles_map c4w_hypot c4w_para 100 =
      List.replicate 4 (List.replicate 4 true) := by
    norm_num [obstacles_map, c4w_hypot, c4w_para, pyround, h4,
      List.range_succ, List.range_zero, List.flatMap_cons,
      List.flatMap_nil, List.map_cons, List.map_nil, List.replicate]
  have hinit : dinit c4w_start c4w_para =
      ⟨[(10, ⟨2, 2, 0, -1⟩)], [], [(10, 0)]⟩ := by
    norm_num [dinit, dgoal_node, calc_holonomic_index, pyround,
      c4w_start, c4w_para]
  have h2 : (2 : ℤ).toNat = 2 := rfl
  have h3 : (3 : ℤ).toNat = 3 := rfl
  have hstep1 : dsearch_step c4w_hypot c4w_para
      (List.replicate 4 (List.replicate 4 true))
      ⟨[(10, ⟨2, 2, 0, -1⟩)], [], [(10, 0)]⟩ =
      DStepRes.next ⟨[], [(10, ⟨2, 2, 0, -1⟩)], []⟩ := by
    norm_num [dsearch_step, pqPopMin, alookup, ainsert, aremove, dexpand,
      get_motion, check_holonomic_node, calc_holonomic_index, u_cost,
      c4w_hypot, c4w_para, List.replicate, h2, h3,
      List.getElem_cons_succ, List.getElem_cons_zero,
      List.getElem?_cons_succ, List.getElem?_cons_zero, Option.getD]
  have hstep2 : dsearch_step c4w_hypot c4w_para
      (List.replicate 4 (List.replicate 4 true))
      ⟨[], [(10, ⟨2, 2, 0, -1⟩)], []⟩ =
      DStepRes.done [(10, ⟨2, 2, 0, -1⟩)] := by
    norm_num [dsearch_step]
  have hbuild : build_hmap c4w_para [(10, ⟨2, 2, 0, -1⟩)] =
      some c4w_hmap := by
    norm_num [build_hmap, pySet2D, pySet, pyGet, c4w_para, c4w_hmap,
      List.replicate, h2, List.getElem_cons_succ, List.getElem_cons_zero,
      List.set_cons_succ, List.set_cons_zero]
  simp only [calc_holonomic_heuristic_with_obstacle, hobs, hinit, dloop,
    hstep1, hstep2, hbuild]

theorem c4w_step : search_step
    (⟨fun _ => 1, fun _ => 0, fun t => t, c4w_rsgen, c4w_para, c4w_hmap,
      c4w_start, (calc_motion_set ℚ).1, (calc_motion_set ℚ).2⟩ : HCtx ℚ)
    ⟨[(74, c4w_start)], [], [(74, 0)]⟩ =
    StepRes.found c4w_fnode [(74, c4w_start)] := by
  norm_num [search_step, pqPopMin, alookup, ainsert, aremove,
    update_node_with_analystic_expantion, analystic_expantion,
    sortByCost, insertByCost, calc_rs_path_cost, rs_distance_cost,
    rs_switch_cost, everyKth, is_collision, pose_hits_obstacle,
    query_ball, calc_index, c4w_rsgen, c4w_para, c4w_hmap, c4w_start,
    c4w_fnode, List.range_succ, List.find?, C.RF, C.RB, C.W,
    C.COLLISION_CHECK_STEP]

theorem c4w_extract : extract_path [(74, c4w_start)] c4w_fnode
    c4w_start 3 = none := by
  norm_num [extract_path, extract_loop, is_same_grid, c4w_fnode,
    c4w_start]

/-- C4, counterexample: with start = goal = (2, 2, 0) and the RS
collaborator returning the identity path (a single sample), the planner
neither returns `None` nor a `Path`: `extract_path` raises an
IndexError on `direction[1]` because the reconstructed path has fewer
than two samples. -/
theorem c4_counterexample :
    hybrid_astar_planning c4w_hypot (fun _ => 1) (fun _ => 0)
      (fun t => t) c4w_rsgen 2 2 0 2 2 0 [0, 4] [0, 4] 1 1 100 3 2 3 =
      PlanRes.error := by
  have hP : calc_parameters ([0, 4] : List ℤ) ([0, 4] : List ℤ)
      (1 : ℚ) (1 : ℚ) = some c4w_para := by
    norm_num [calc_parameters, pyround, C.PI, List.min?, List.max?,
      c4w_para]
  have hstart : nstart_of (fun t => t) (2 : ℚ) 2 0 1 1 = c4w_start := by
    norm_num [nstart_of, pyround, c4w_start]
  have hsind : calc_index c4w_start c4w_para = (74 : ℤ) := by
    norm_num [calc_index, c4w_start, c4w_para]
  have hcost : calc_hybrid_cost c4w_start c4w_hmap c4w_para =
      some (0 : WithTop ℚ) := by
    have h2 : (2 : ℤ).toNat = 2 := rfl
    norm_num [calc_hybrid_cost, pyGet2D, pyGet, c4w_hmap, c4w_para,
      c4w_start, C.H_COST, h2, List.getElem?_cons_succ,
      List.getElem?_cons_zero, List.getElem_cons_succ,
      List.getElem_cons_zero, mul_zero]
  have hloop : hybrid_loop
      (⟨fun _ => 1, fun _ => 0, fun t => t, c4w_rsgen, c4w_para,
        c4w_hmap, c4w_start, (calc_motion_set ℚ).1,
        (calc_motion_set ℚ).2⟩ : HCtx ℚ) 2
      ⟨[(74, c4w_start)], [], [(74, 0)]⟩ =
      LoopRes.found c4w_fnode [(74, c4w_start)] := by
    simp [hybrid_loop, c4w_step]
  simp only [hybrid_astar_planning, hP, hstart, hsind, hcost, hloop,
    c4w_hrun, c4w_extract]

/-! Concrete scenario for claim C3: start and goal occupy the same
discrete cell (the origin of a 4 x 4 grid with corner obstacles). -/

def c3w_rsgen : ℚ → ℚ → ℚ → ℚ → ℚ → ℚ → List (RSPath ℚ) :=
  fun _ _ _ _ _ _ => [⟨[0], [0], [0], [1], [0]⟩]

def c3w_para : Para ℚ :=
  ⟨-2, -2, -4, 2, 2, 3, 4, 4, 7, 1, 1, [-2, 2], [-2, 2]⟩

def c3w_start : Node ℚ := ⟨0, 0, 0, 1, [0], [0], [0], [1], 0, 0, -1⟩

def c3w_fnode : Node ℚ := ⟨0, 0, 0, 1, [], [], [], [], 0, 1, 74⟩

/-- C3: when the start pose equals the goal pose, the analytic
expansion succeeds at the first iteration with the RS identity path
whose interior `[1:-1]` is empty; `extract_path` then crashes reading
`direction[1]` of a length-1 direction list (modelled as `none`),
instead of returning a Path of length 1. -/
theorem c3_short_path_crash :
    update_node_with_analystic_expantion c3w_rsgen (fun _ => 1)
      (fun _ => 0) c3w_start c3w_start c3w_para = some c3w_fnode ∧
    extract_path [(74, c3w_start)] c3w_fnode c3w_start 3 = none := by
  constructor
  · norm_num [update_node_with_analystic_expantion, analystic_expantion,
      sortByCost, insertByCost, calc_rs_path_cost, rs_distance_cost,
      rs_switch_cost, everyKth, is_collision, pose_hits_obstacle,
      query_ball, calc_index, c3w_rsgen, c3w_para, c3w_start, c3w_fnode,
      List.range_succ, List.find?, C.RF, C.RB, C.W,
      C.COLLISION_CHECK_STEP]
  · norm_num [extract_path, extract_loop, is_same_grid, c3w_fnode,
      c3w_start]

/-! Claim C7: a closed cell key is never re-expanded, in both loops. -/

section C7Defs

variable {α : Type} [LinearOrderedField α] [FloorRing α]

/-- Bookkeeping well-formedness of the hybrid loop state: no duplicate
keys, the open dict and the priority queue hold the same keys, and
closed keys appear in neither. -/
def HWF (st : SearchState α) : Prop :=
  (akeys st.openSet).Nodup ∧ (akeys st.pq).Nodup ∧
    (∀ k, k ∈ akeys st.openSet ↔ k ∈ akeys st.pq) ∧
    (∀ k ∈ akeys st.closedSet, k ∉ akeys st.openSet) ∧
    (∀ k ∈ akeys st.closedSet, k ∉ akeys st.pq)

/-- The same bookkeeping well-formedness for the Dijkstra state. -/
def DWF (st : DState α) : Prop :=
  (akeys st.openSet).Nodup ∧ (akeys st.pq).Nodup ∧
    (∀ k, k ∈ akeys st.openSet ↔ k ∈ akeys st.pq) ∧
    (∀ k ∈ akeys st.closedSet, k ∉ akeys st.openSet) ∧
    (∀ k ∈ akeys st.closedSet, k ∉ akeys st.pq)

/-- Keys of a concatenation of association lists. -/
theorem akeys_append {β : Type} (l1 l2 : List (ℤ × β)) :
    akeys (l1 ++ l2) = akeys l1 ++ akeys l2 := by
  unfold akeys
  exact List.map_append _ _ _

/-- Inserting one fresh key (not a closed key) into both the open dict
and the priority structure preserves the bookkeeping. -/
theorem keys_insert_pair {β1 β2 : Type} {op : List (ℤ × β1)}
    {pq : List (ℤ × β2)} {closedKeys : List ℤ} {ind : ℤ} {node : β1}
    {f : β2}
    (h1 : (akeys op).Nodup) (h2 : (akeys pq).Nodup)
    (h3 : ∀ k, k ∈ akeys op ↔ k ∈ akeys pq)
    (h4 : ∀ k ∈ closedKeys, k ∉ akeys op)
    (h5 : ∀ k ∈ closedKeys, k ∉ akeys pq)
    (hnotcl : ind ∉ closedKeys) :
    (akeys (ainsert op ind node)).Nodup ∧
      (akeys (ainsert pq ind f)).Nodup ∧
      (∀ k, k ∈ akeys (ainsert op ind node) ↔
        k ∈ akeys (ainsert pq ind f)) ∧
      (∀ k ∈ closedKeys, k ∉ akeys (ainsert op ind node)) ∧
      (∀ k ∈ closedKeys, k ∉ akeys (ainsert pq ind f)) := by
  refine ⟨akeys_ainsert_nodup h1, akeys_ainsert_nodup h2, ?_, ?_, ?_⟩
  · intro k
    rw [akeys_ainsert_mem, akeys_ainsert_mem, h3]
  · intro k hk hmem
    rw [akeys_ainsert_mem] at hmem
    rcases hmem with hmem | rfl
    · exact h4 k hk hmem
    · exact hnotcl hk
  · intro k hk hmem
    rw [akeys_ainsert_mem] at hmem
    rcases hmem with hmem | rfl
    · exact h5 k hk hmem
    · exact hnotcl hk

/-- The hybrid successor loop preserves the bookkeeping: it only ever
inserts keys that are not in the closed set, into both structures at
once. -/
theorem hexpand_keys (ctx : HCtx α) (n_curr : Node α) (c_id : ℤ)
    (closed : List (ℤ × Node α)) :
    ∀ (uds : List (α × α)) (op : List (ℤ × Node α))
      (pq : List (ℤ × WithTop α)) (op2 : List (ℤ × Node α))
      (pq2 : List (ℤ × WithTop α)),
      hexpand ctx n_curr c_id closed uds op pq = some (op2, pq2) →
      (akeys op).Nodup → (akeys pq).Nodup →
      (∀ k, k ∈ akeys op ↔ k ∈ akeys pq) →
      (∀ k ∈ akeys closed, k ∉ akeys op) →
      (∀ k ∈ akeys closed, k ∉ akeys pq) →
      (akeys op2).Nodup ∧ (akeys pq2).Nodup ∧
        (∀ k, k ∈ akeys op2 ↔ k ∈ akeys pq2) ∧
        (∀ k ∈ akeys closed, k ∉ akeys op2) ∧
        (∀ k ∈ akeys closed, k ∉ akeys pq2) := by
  intro uds
  induction uds with
  | nil =>
    intro op pq op2 pq2 h h1 h2 h3 h4 h5
    simp only [hexpand, Option.some.injEq, Prod.mk.injEq] at h
    obtain ⟨rfl, rfl⟩ := h
    exact ⟨h1, h2, h3, h4, h5⟩
  | cons ud rest ih =>
    intro op pq op2 pq2 h h1 h2 h3 h4 h5
    simp only [hexpand] at h
    split at h
    · exact ih op pq op2 pq2 h h1 h2 h3 h4 h5
    · rename_i node hnode
      split at h
      · exact ih op pq op2 pq2 h h1 h2 h3 h4 h5
      · rename_i hnotcl
        have hnotcl2 : calc_index node ctx.P ∉ akeys closed :=
          fun hmem => hnotcl (alookup_isSome_iff.mpr hmem)
        split at h
        · split at h
          · exact absurd h (by simp)
          · rename_i f hf
            obtain ⟨g1, g2, g3, g4, g5⟩ :=
              keys_insert_pair h1 h2 h3 h4 h5 hnotcl2
            exact ih _ _ op2 pq2 h g1 g2 g3 g4 g5
        · rename_i exist hexist
          split at h
          · split at h
            · exact absurd h (by simp)
            · rename_i f hf
              obtain ⟨g1, g2, g3, g4, g5⟩ :=
                keys_insert_pair h1 h2 h3 h4 h5 hnotcl2
              exact ih _ _ op2 pq2 h g1 g2 g3 g4 g5
          · exact ih op pq op2 pq2 h h1 h2 h3 h4 h5

/-- The Dijkstra successor loop preserves the bookkeeping: a fresh key
(not closed, not open) enters both the open dict and the heap; a
decrease-key rewrites the stored node in place and pushes nothing. -/
theorem dexpand_keys {hypot : α → α → α} {P : Para α}
    {obsmap : List (List Bool)} (closed : List (ℤ × HolonomicNode α))
    (n_curr : HolonomicNode α) (ind : ℤ) :
    ∀ (ms : List (ℤ × ℤ)) (op : List (ℤ × HolonomicNode α))
      (pq : List (ℤ × α)),
      (akeys op).Nodup → (akeys pq).Nodup →
      (∀ k, k ∈ akeys op ↔ k ∈ akeys pq) →
      (∀ k ∈ akeys closed, k ∉ akeys op) →
      (∀ k ∈ akeys closed, k ∉ akeys pq) →
      (akeys (dexpand hypot P obsmap closed n_curr ind ms op pq).1).Nodup ∧
        (akeys (dexpand hypot P obsmap closed n_curr ind ms op pq).2).Nodup ∧
        (∀ k, k ∈ akeys (dexpand hypot P obsmap closed n_curr ind ms op pq).1 ↔
          k ∈ akeys (dexpand hypot P obsmap closed n_curr ind ms op pq).2) ∧
        (∀ k ∈ akeys closed,
          k ∉ akeys (dexpand hypot P obsmap closed n_curr ind ms op pq).1) ∧
        (∀ k ∈ akeys closed,
          k ∉ akeys (dexpand hypot P obsmap closed n_curr ind ms op pq).2) := by
  intro ms
  induction ms with
  | nil =>
    intro op pq h1 h2 h3 h4 h5
    exact ⟨h1, h2, h3, h4, h5⟩
  | cons m rest ih =>
    intro op pq h1 h2 h3 h4 h5
    simp only [dexpand]
    split
    · rename_i hcheck
      split
      · exact ih op pq h1 h2 h3 h4 h5
      · rename_i hnotcl
        have hnotcl2 : calc_holonomic_index
            ⟨n_curr.x + m.1, n_curr.y + m.2,
              n_curr.cost + u_cost hypot m, ind⟩ P ∉ akeys closed :=
          fun hmem => hnotcl (alookup_isSome_iff.mpr hmem)
        split
        · rename_i exist hexist
          split
          · -- decrease-key: the key is already in the open dict
            have hindop : calc_holonomic_index
                ⟨n_curr.x + m.1, n_curr.y + m.2,
                  n_curr.cost + u_cost hypot m, ind⟩ P ∈ akeys op :=
              mem_akeys.mpr ⟨exist, alookup_mem hexist⟩
            apply ih
            · exact akeys_ainsert_nodup h1
            · exact h2
            · intro k
              rw [akeys_ainsert_mem]
              constructor
              · intro hk
                rcases hk with hk | rfl
                · exact (h3 k).mp hk
                · exact (h3 _).mp hindop
              · intro hk
                exact Or.inl ((h3 k).mpr hk)
            · intro k hk hmem
              rw [akeys_ainsert_mem] at hmem
              rcases hmem with hmem | rfl
              · exact h4 k hk hmem
              · exact hnotcl2 hk
            · exact h5
          · exact ih op pq h1 h2 h3 h4 h5
        · rename_i hexist
          -- fresh key: append to both
          have hindnotop : calc_holonomic_index
              ⟨n_curr.x + m.1, n_curr.y + m.2,
                n_curr.cost + u_cost hypot m, ind⟩ P ∉ akeys op :=
            alookup_eq_none_iff.mp hexist
          have hindnotpq : calc_holonomic_index
              ⟨n_curr.x + m.1, n_curr.y + m.2,
                n_curr.cost + u_cost hypot m, ind⟩ P ∉ akeys pq :=
            fun hm => hindnotop ((h3 _).mpr hm)
          apply ih
          · exact akeys_ainsert_nodup h1
          · rw [akeys_append]
            rw [List.nodup_append]
            refine ⟨h2, List.nodup_singleton _, ?_⟩
            intro a ha hb
            simp only [akeys, List.map_cons, List.map_nil,
              List.mem_singleton] at hb
            subst hb
            exact hindnotpq ha
          · intro k
            rw [akeys_ainsert_mem, akeys_append, List.mem_append]
            constructor
            · intro hk
              rcases hk with hk | rfl
              · exact Or.inl ((h3 k).mp hk)
              · exact Or.inr (by simp [akeys])
            · intro hk
              rcases hk with hk | hk
              · exact Or.inl ((h3 k).mpr hk)
              · exact Or.inr (by simpa [akeys] using hk)
          · intro k hk hmem
            rw [akeys_ainsert_mem] at hmem
            rcases hmem with hmem | rfl
            · exact h4 k hk hmem
            · exact hnotcl2 hk
          · intro k hk hmem
            rw [akeys_append, List.mem_append] at hmem
            rcases hmem with hmem | hmem
            · exact h5 k hk hmem
            · have hkeq : k = calc_holonomic_index
                  ⟨n_curr.x + m.1, n_curr.y + m.2,
                    n_curr.cost + u_cost hypot m, ind⟩ P := by
                simpa [akeys] using hmem
              subst hkeq
              exact hnotcl2 hk
    · exact ih op pq h1 h2 h3 h4 h5

end C7Defs

section C7Step

variable {α : Type} [LinearOrderedField α] [FloorRing α]

/-- A hybrid iteration that continues preserves the bookkeeping and
only grows the closed set. -/
theorem search_step_next_hwf {ctx : HCtx α} {st st2 : SearchState α}
    (hwf : HWF st) (h : search_step ctx st = StepRes.next st2) :
    HWF st2 ∧ ∀ k ∈ akeys st.closedSet, k ∈ akeys st2.closedSet := by
  unfold search_step at h
  split at h
  · exact absurd h (by simp)
  · split at h
    · exact absurd h (by simp)
    · rename_i ind c pq2 hpop
      split at h
      · exact absurd h (by simp)
      · rename_i n_curr hlook
        split at h
        · exact absurd h (by simp)
        · split at h
          · exact absurd h (by simp)
          · rename_i r hexp
            simp only [StepRes.next.injEq] at h
            subst h
            obtain ⟨hnd1, hnd2, hiff, hdisj, hdisjpq⟩ := hwf
            obtain ⟨hndpq2, hindpq, hiffpq2⟩ := pqPopMin_keys hnd2 hpop
            have hindopen : ind ∈ akeys st.openSet :=
              mem_akeys.mpr ⟨n_curr, alookup_mem hlook⟩
            have hndrm : (akeys (aremove st.openSet ind)).Nodup :=
              akeys_aremove_nodup hnd1
            have hiffrm : ∀ k, k ∈ akeys (aremove st.openSet ind) ↔
                k ∈ akeys pq2 := by
              intro k
              rw [akeys_aremove_mem, hiffpq2 k, hiff k]
            have hdisj2 : ∀ k ∈ akeys (ainsert st.closedSet ind n_curr),
                k ∉ akeys (aremove st.openSet ind) := by
              intro k hk hmem
              rw [akeys_aremove_mem] at hmem
              rw [akeys_ainsert_mem] at hk
              rcases hk with hk | rfl
              · exact hdisj k hk hmem.1
              · exact hmem.2 rfl
            have hdisjpq2 : ∀ k ∈ akeys (ainsert st.closedSet ind n_curr),
                k ∉ akeys pq2 := by
              intro k hk hmem
              rw [hiffpq2 k] at hmem
              rw [akeys_ainsert_mem] at hk
              rcases hk with hk | rfl
              · exact hdisjpq k hk hmem.1
              · exact hmem.2 rfl
            obtain ⟨g1, g2, g3, g4, g5⟩ :=
              hexpand_keys ctx n_curr ind
                (ainsert st.closedSet ind n_curr)
                (ctx.steer.zip ctx.direc) (aremove st.openSet ind) pq2
                r.1 r.2 hexp hndrm hndpq2 hiffrm hdisj2 hdisjpq2
            exact ⟨⟨g1, g2, g3, g4, g5⟩,
              fun k hk => akeys_ainsert_mem.mpr (Or.inl hk)⟩

/-- A Dijkstra iteration that continues preserves the bookkeeping and
only grows the closed set. -/
theorem dsearch_step_next_dwf {hypot : α → α → α} {P : Para α}
    {obsmap : List (List Bool)} {st st2 : DState α}
    (hwf : DWF st)
    (h : dsearch_step hypot P obsmap st = DStepRes.next st2) :
    DWF st2 ∧ ∀ k ∈ akeys st.closedSet, k ∈ akeys st2.closedSet := by
  simp only [dsearch_step] at h
  split at h
  · exact absurd h (by simp)
  · split at h
    · exact absurd h (by simp)
    · rename_i ind c pq2 hpop
      split at h
      · exact absurd h (by simp)
      · rename_i n_curr hlook
        simp only [DStepRes.next.injEq] at h
        subst h
        obtain ⟨hnd1, hnd2, hiff, hdisj, hdisjpq⟩ := hwf
        obtain ⟨hndpq2, hindpq, hiffpq2⟩ := pqPopMin_keys hnd2 hpop
        have hindopen : ind ∈ akeys st.openSet :=
          mem_akeys.mpr ⟨n_curr, alookup_mem hlook⟩
        have hndrm : (akeys (aremove st.openSet ind)).Nodup :=
          akeys_aremove_nodup hnd1
        have hiffrm : ∀ k, k ∈ akeys (aremove st.openSet ind) ↔
            k ∈ akeys pq2 := by
          intro k
          rw [akeys_aremove_mem, hiffpq2 k, hiff k]
        have hdisj2 : ∀ k ∈ akeys (ainsert st.closedSet ind n_curr),
            k ∉ akeys (aremove st.openSet ind) := by
          intro k hk hmem
          rw [akeys_aremove_mem] at hmem
          rw [akeys_ainsert_mem] at hk
          rcases hk with hk | rfl
          · exact hdisj k hk hmem.1
          · exact hmem.2 rfl
        have hdisjpq2 : ∀ k ∈ akeys (ainsert st.closedSet ind n_curr),
            k ∉ akeys pq2 := by
          intro k hk hmem
          rw [hiffpq2 k] at hmem
          rw [akeys_ainsert_mem] at hk
          rcases hk with hk | rfl
          · exact hdisjpq k hk hmem.1
          · exact hmem.2 rfl
        obtain ⟨g1, g2, g3, g4, g5⟩ :=
          dexpand_keys (ainsert st.closedSet ind n_curr) n_curr ind
            get_motion (aremove st.openSet ind) pq2
            hndrm hndpq2 hiffrm hdisj2 hdisjpq2
        exact ⟨⟨g1, g2, g3, g4, g5⟩,
          fun k hk => akeys_ainsert_mem.mpr (Or.inl hk)⟩

/-- C7: in both search loops, once a lattice cell key has been moved to
the closed set it stays closed through every later plain iteration and
never reappears in the open dict or the priority structure, so it is
never popped and re-expanded.  The first conjunct covers the 3D hybrid
loop (`stepN`), the second the 2D holonomic Dijkstra loop (`dstepN`),
each from any well-formed state. -/
theorem c7_closed_never_reexpanded :
    (∀ (ctx : HCtx α) (n : ℕ) (st st2 : SearchState α) (k : ℤ),
      HWF st → k ∈ akeys st.closedSet → stepN ctx n st = some st2 →
      k ∈ akeys st2.closedSet ∧ k ∉ akeys st2.openSet ∧
        k ∉ akeys st2.pq) ∧
    (∀ (hypot : α → α → α) (P : Para α) (obsmap : List (List Bool))
      (n : ℕ) (st st2 : DState α) (k : ℤ),
      DWF st → k ∈ akeys st.closedSet →
      dstepN hypot P obsmap n st = some st2 →
      k ∈ akeys st2.closedSet ∧ k ∉ akeys st2.openSet ∧
        k ∉ akeys st2.pq) := by
  constructor
  · intro ctx n
    induction n with
    | zero =>
      intro st st2 k hwf hk h
      simp only [stepN, Option.some.injEq] at h
      subst h
      exact ⟨hk, hwf.2.2.2.1 k hk, hwf.2.2.2.2 k hk⟩
    | succ n ih =>
      intro st st2 k hwf hk h
      simp only [stepN] at h
      split at h
      · rename_i st3 hs
        obtain ⟨hwf3, hmono⟩ := search_step_next_hwf hwf hs
        exact ih st3 st2 k hwf3 (hmono k hk) h
      all_goals exact absurd h (by simp)
  · intro hypot P obsmap n
    induction n with
    | zero =>
      intro st st2 k hwf hk h
      simp only [dstepN, Option.some.injEq] at h
      subst h
      exact ⟨hk, hwf.2.2.2.1 k hk, hwf.2.2.2.2 k hk⟩
    | succ n ih =>
      intro st st2 k hwf hk h
      simp only [dstepN] at h
      split at h
      · rename_i st3 hs
        obtain ⟨hwf3, hmono⟩ := dsearch_step_next_dwf hwf hs
        exact ih st3 st2 k hwf3 (hmono k hk) h
      all_goals exact absurd h (by simp)

end C7Step

/-! Concrete one-step runs witnessing claim C7 in both loops: a state
whose closed set already holds a dummy key, stepped once.  In the hybrid
run the popped cell expands back into its own (now closed) cell, so the
successor is skipped; in the Dijkstra run all eight neighbours fall
outside the strict grid bounds. -/

def c7w_para : Para ℚ :=
  ⟨-2, -2, -4, 2, 2, 3, 4, 4, 7, 1, 1, [-2, 2], [-2, 2]⟩

def c7w_start : Node ℚ := ⟨0, 0, 0, 1, [0], [0], [0], [1], 0, 0, -1⟩

def c7w_dummy : Node ℚ := ⟨1, 1, 0, 1, [1], [1], [0], [1], 0, 0, -1⟩

def c7w_ctx : HCtx ℚ :=
  ⟨fun _ => 1, fun _ => 0, fun t => t, fun _ _ _ _ _ _ => [], c7w_para,
   [], c7w_start, [0], [1]⟩

def c7w_st0 : SearchState ℚ :=
  ⟨[(74, c7w_start)], [(5, c7w_dummy)], [(74, 0)]⟩

def c7w_st1 : SearchState ℚ :=
  ⟨[], [(5, c7w_dummy), (74, c7w_start)], []⟩

def c7w_hypot : ℚ → ℚ → ℚ := fun a b => a * a + b * b

def c7w_hgoal : HolonomicNode ℚ := ⟨1, 1, 0, -1⟩

def c7w_hdummy : HolonomicNode ℚ := ⟨0, 0, 0, -1⟩

def c7w_dpara : Para ℚ := ⟨0, 0, -4, 2, 2, 3, 2, 2, 7, 1, 1, [0, 2], [0, 2]⟩

def c7w_dst0 : DState ℚ := ⟨[(3, c7w_hgoal)], [(9, c7w_hdummy)], [(3, 0)]⟩

def c7w_dst1 : DState ℚ := ⟨[], [(9, c7w_hdummy), (3, c7w_hgoal)], []⟩

theorem c7_closed_never_reexpanded_witness :
    ((5 : ℤ) ∈ akeys c7w_st1.closedSet ∧
      (5 : ℤ) ∉ akeys c7w_st1.openSet ∧ (5 : ℤ) ∉ akeys c7w_st1.pq) ∧
    ((9 : ℤ) ∈ akeys c7w_dst1.closedSet ∧
      (9 : ℤ) ∉ akeys c7w_dst1.openSet ∧ (9 : ℤ) ∉ akeys c7w_dst1.pq) := by
  constructor
  · have h2 : (2 : ℤ).toNat = 2 := rfl
    have hstep : search_step c7w_ctx c7w_st0 = StepRes.next c7w_st1 := by
      norm_num [search_step, pqPopMin, alookup, ainsert, aremove,
        update_node_with_analystic_expantion, analystic_expantion,
        hexpand, calc_next_node, next_sample, sample_chain, pyround,
        is_index_ok, everyKth, is_collision, pose_hits_obstacle,
        query_ball, calc_index, c7w_ctx, c7w_para, c7w_start, c7w_dummy,
        c7w_st0, c7w_st1, h2, List.range_succ, List.find?, C.RF, C.RB,
        C.W, C.XY_RESO, C.MOVE_STEP, C.COLLISION_CHECK_STEP,
        C.BACKWARD_COST, C.GEAR_COST, C.ANGULAR_VELOCITY_CHANGE_COST]
    have hstepN : stepN c7w_ctx 1 c7w_st0 = some c7w_st1 := by
      simp [stepN, hstep]
    have hwf : HWF c7w_st0 := by
      refine ⟨by simp [c7w_st0, akeys], by simp [c7w_st0, akeys],
        fun k => by simp [c7w_st0, akeys], ?_, ?_⟩ <;>
      · intro k hk
        simp only [c7w_st0, akeys, List.map_cons, List.map_nil,
          List.mem_cons, List.not_mem_nil, or_false] at hk ⊢
        omega
    have hk5 : (5 : ℤ) ∈ akeys c7w_st0.closedSet := by
      simp [c7w_st0, akeys]
    exact c7_closed_never_reexpanded.1 c7w_ctx 1 c7w_st0 c7w_st1 5
      hwf hk5 hstepN
  · have hdstep : dsearch_step c7w_hypot c7w_dpara [] c7w_dst0 =
        DStepRes.next c7w_dst1 := by
      norm_num [dsearch_step, pqPopMin, alookup, ainsert, aremove,
        dexpand, get_motion, check_holonomic_node, calc_holonomic_index,
        u_cost, c7w_hypot, c7w_dpara, c7w_dst0, c7w_dst1, c7w_hgoal,
        c7w_hdummy]
    have hdstepN : dstepN c7w_hypot c7w_dpara [] 1 c7w_dst0 =
        some c7w_dst1 := by
      simp [dstepN, hdstep]
    have hdwf : DWF c7w_dst0 := by
      refine ⟨by simp [c7w_dst0, akeys], by simp [c7w_dst0, akeys],
        fun k => by simp [c7w_dst0, akeys], ?_, ?_⟩ <;>
      · intro k hk
        simp only [c7w_dst0, akeys, List.map_cons, List.map_nil,
          List.mem_cons, List.not_mem_nil, or_false] at hk ⊢
        omega
    have hk9 : (9 : ℤ) ∈ akeys c7w_dst0.closedSet := by
      simp [c7w_dst0, akeys]
    exact c7_closed_never_reexpanded.2 c7w_hypot c7w_dpara [] 1
      c7w_dst0 c7w_dst1 9 hdwf hk9 hdstepN

end HA
